import Mathlib

/-
  Verification development for the YouTwo knowledge-graph store
  (src/backend/convex: entities.ts, relations.ts, knowledge.ts, schema.ts).

  The Convex mutations are shallowly embedded as pure functions threading an
  explicit database state `DB`.  Convex document ids are modelled as naturals
  drawn from a `nextId` counter (each `ctx.db.insert` allocates the next id);
  tables are insertion-ordered lists, so `.withIndex(...).first()` is
  `List.find?` over the list filtered by the index predicate, and
  `.collect()` on an index is `List.filter`.  A JavaScript `Set` is an
  insertion-ordered duplicate-free list, modelled by `jsDedupAux`.
  `ctx.db.delete` throws when the id does not resolve, and Convex mutations
  abort wholesale on a throw, so fallible operations return `Except Unit`.
  The append-only operations log never influences the entity, relation or
  knowledge tables, and no claim inspects it, so it is omitted from `DB`.
  Timestamps (`Date.now()`) are passed in as an explicit `now` argument.
-/

namespace YouTwo

/-- Output field that holds either an entity name or, when the endpoint does
not resolve (or its name is falsy), the raw entity id — mirroring the
JavaScript expression `entityMap.get(relation.from)?.name || relation.from`. -/
inductive NameOrId where
  | name (s : String)
  | nid (i : Nat)
deriving DecidableEq, Repr

/-- A document of the `entities` table (schema.ts `entityDoc` plus `_id`). -/
structure Entity where
  eid : Nat
  name : String
  entityType : String
  observations : List String
  updatedAt : Nat
  journalIds : List Nat
deriving DecidableEq, Repr

/-- A document of the `relations` table (schema.ts `relationDoc` plus `_id`).
The source fields `from` and `to` are rendered `rfrom` and `rto` because
`from` is reserved in Lean. -/
structure Relation where
  rid : Nat
  rfrom : Nat
  rto : Nat
  relationType : String
  journalIds : List Nat
deriving DecidableEq, Repr

/-- A document of the `knowledge` table (schema.ts `knowledgeDoc` plus `_id`):
the adjacency-index entry of one entity. -/
structure Knowledge where
  kid : Nat
  entity : Nat
  relations : List Nat
  updatedAt : Nat
deriving DecidableEq, Repr

/-- The database state: the three tables the claims are about, plus the
fresh-id counter. -/
structure DB where
  entities : List Entity
  relations : List Relation
  knowledge : List Knowledge
  nextId : Nat
deriving DecidableEq, Repr

/-- Per-item result of the batch entity operations (entities.ts
`EntityResult`). -/
structure EntityResult where
  success : Bool
  name : String
  id? : Option Nat := none
  reason? : Option String := none
  addedObservations? : Option (List String) := none
  relationsRemoved? : Option Nat := none
  observationsRemoved? : Option Nat := none
deriving DecidableEq, Repr

/-- Per-item result of the batch relation operations (relations.ts
`RelationResult`).  On failure results the code echoes the entity names it
was given; on success results of `createRelations` it echoes the resolved
entity ids, hence `NameOrId`. -/
structure RelationResult where
  success : Bool
  rfrom : NameOrId
  rto : NameOrId
  relationType : String
  reason? : Option String := none
  relationId? : Option Nat := none
deriving DecidableEq, Repr

/-- JavaScript `Set` insertion starting from the already-deduplicated
contents `acc`: each element of the second list is appended unless already
present. -/
def jsDedupAux {α : Type} [BEq α] (acc : List α) : List α → List α
  | [] => acc
  | x :: xs => if acc.contains x then jsDedupAux acc xs else jsDedupAux (acc ++ [x]) xs

/-- `Array.from(new Set(l))`: first occurrences of `l` in order. -/
def jsDedup {α : Type} [BEq α] (l : List α) : List α := jsDedupAux [] l

/-- The `addObservations` inner loop: starting from the set `acc`, insert
each element of the list, returning the final set contents together with the
list of elements that were actually new (`newObservations`). -/
def jsSetAddAll (acc : List String) : List String → List String × List String
  | [] => (acc, [])
  | x :: xs =>
    if acc.contains x then jsSetAddAll acc xs
    else
      let r := jsSetAddAll (acc ++ [x]) xs
      (r.1, x :: r.2)

/-- The `deleteObservations` inner loop: starting from the set `acc`, delete
each element of the list, returning the final set contents together with the
number of successful deletions (`removedCount`). -/
def jsSetDeleteAll (acc : List String) : List String → List String × Nat
  | [] => (acc, 0)
  | x :: xs =>
    if acc.contains x then
      let r := jsSetDeleteAll (acc.filter (fun y => !(y == x))) xs
      (r.1, r.2 + 1)
    else jsSetDeleteAll acc xs

/-- entities.ts `getEntityFromName`: `by_name` index lookup with `.first()`. -/
def getEntityFromName (s : DB) (name : String) : Option Entity :=
  s.entities.find? (fun e => e.name == name)

/-- `ctx.db.get`-style lookup of an entity by id. -/
def lookupEntityById (s : DB) (i : Nat) : Option Entity :=
  s.entities.find? (fun e => e.eid == i)

/-- Input item of `createEntities` (schema.ts `entityDoc`, i.e. an entity
document without `_id`). -/
structure EntityInput where
  name : String
  entityType : String
  observations : List String
  updatedAt : Nat
  journalIds : List Nat
deriving DecidableEq, Repr

/-- entities.ts `internalCreateEntities`: insert every item, returning one
success result per item (the operations-log append is omitted). -/
def internalCreateEntities : DB → List EntityInput → List EntityResult × DB
  | s, [] => ([], s)
  | s, it :: rest =>
    let e : Entity :=
      ⟨s.nextId, it.name, it.entityType, it.observations, it.updatedAt, it.journalIds⟩
    let r := internalCreateEntities
      { s with entities := s.entities ++ [e], nextId := s.nextId + 1 } rest
    ({ success := true, name := it.name, id? := some s.nextId } :: r.1, r.2)

/-- The conflict reason string built by `createEntities`. -/
def conflictReason (name : String) (existingId : Nat) : String :=
  "Entity with name " ++ name ++ " already exists: (" ++ toString existingId ++ ")"

/-- The per-item conflict failure result of `createEntities`. -/
def conflictResult (name : String) (existingId : Nat) : EntityResult :=
  { success := false, name := name, reason? := some (conflictReason name existingId) }

/-- entities.ts `createEntities` handler: every item is checked against the
pre-call store (inserts happen only after the loop), conflicting items
produce failure results, the remaining items are inserted by
`internalCreateEntities`, and the returned array is the failures followed by
the successes. -/
def createEntities (s : DB) (items : List EntityInput) : List EntityResult × DB :=
  let failures := items.filterMap (fun it =>
    match getEntityFromName s it.name with
    | some ex => some (conflictResult it.name ex.eid)
    | none => none)
  let newEntities := items.filter (fun it => (getEntityFromName s it.name).isNone)
  if newEntities.isEmpty then (failures, s)
  else
    let r := internalCreateEntities s newEntities
    (failures ++ r.1, r.2)

/-- Input item of `addObservations`. -/
structure ObservationInput where
  entityName : String
  contents : List String
deriving DecidableEq, Repr

/-- Patch the observations and `updatedAt` of the entity with id `eid`. -/
def patchEntityObs (s : DB) (eid : Nat) (obs : List String) (now : Nat) : DB :=
  { s with entities := s.entities.map (fun e =>
      if e.eid == eid then { e with observations := obs, updatedAt := now } else e) }

/-- entities.ts `addObservations` handler: per item, look the entity up by
name in the current store, insert the contents into the set of its
observations, store the set contents back and report the net-new strings. -/
def addObservations (now : Nat) : DB → List ObservationInput → List EntityResult × DB
  | s, [] => ([], s)
  | s, it :: rest =>
    match getEntityFromName s it.entityName with
    | some e =>
      let upd := jsSetAddAll (jsDedup e.observations) it.contents
      let s1 := patchEntityObs s e.eid upd.1 now
      let r := addObservations now s1 rest
      ({ success := true, name := it.entityName, addedObservations? := some upd.2 } :: r.1, r.2)
    | none =>
      let r := addObservations now s rest
      ({ success := false, name := it.entityName, reason? := some "Entity not found" } :: r.1, r.2)

/-- Input item of `deleteObservations`. -/
structure DeletionInput where
  entityName : String
  observations : List String
deriving DecidableEq, Repr

/-- entities.ts `deleteObservations` handler. -/
def deleteObservations (now : Nat) : DB → List DeletionInput → List EntityResult × DB
  | s, [] => ([], s)
  | s, it :: rest =>
    match getEntityFromName s it.entityName with
    | some e =>
      let upd := jsSetDeleteAll (jsDedup e.observations) it.observations
      let s1 := patchEntityObs s e.eid upd.1 now
      let r := deleteObservations now s1 rest
      ({ success := true, name := it.entityName, observationsRemoved? := some upd.2 } :: r.1, r.2)
    | none =>
      let r := deleteObservations now s rest
      ({ success := false, name := it.entityName, reason? := some "Entity not found" } :: r.1, r.2)

/-- `ctx.db.delete` on one table modelled as a list: removing the document
with the given id, or throwing (`Except.error`) when no document has it —
Convex's `delete` throws on an unresolvable id and the whole mutation
aborts. -/
def deleteById {α : Type} (getId : α → Nat) (l : List α) (i : Nat) : Except Unit (List α) :=
  if l.any (fun x => getId x == i) then Except.ok (l.filter (fun x => !(getId x == i)))
  else Except.error ()

/-- entities.ts `internalDeleteEntities` (operations-log append omitted):
delete each id in turn. -/
def deleteManyEntityIds : DB → List Nat → Except Unit DB
  | s, [] => Except.ok s
  | s, i :: rest =>
    match deleteById Entity.eid s.entities i with
    | Except.error e => Except.error e
    | Except.ok es => deleteManyEntityIds { s with entities := es } rest

/-- relations.ts `internalDeleteRelations` (operations-log append omitted). -/
def deleteManyRelationIds : DB → List Nat → Except Unit DB
  | s, [] => Except.ok s
  | s, i :: rest =>
    match deleteById Relation.rid s.relations i with
    | Except.error e => Except.error e
    | Except.ok rs => deleteManyRelationIds { s with relations := rs } rest

/-- knowledge.ts `internalDeleteKnowledge` (operations-log append omitted). -/
def deleteManyKnowledgeIds : DB → List Nat → Except Unit DB
  | s, [] => Except.ok s
  | s, i :: rest =>
    match deleteById Knowledge.kid s.knowledge i with
    | Except.error e => Except.error e
    | Except.ok ks => deleteManyKnowledgeIds { s with knowledge := ks } rest

/-- The `by_entity` index lookup with `.unique()`, as used by
`deleteEntities`: `none` when no entry exists, the entry when exactly one
does, and a throw when several do. -/
def uniqueKnowledgeFor (s : DB) (eid : Nat) : Except Unit (Option Knowledge) :=
  match s.knowledge.filter (fun k => k.entity == eid) with
  | [] => Except.ok none
  | [k] => Except.ok (some k)
  | _ => Except.error ()

/-- Accumulator of the collection loop of `deleteEntities`: the per-name
results, `entitiesToDelete`, `relationsToDeleteSet` (insertion-ordered,
duplicate-free) and `knowledgeToDelete`. -/
structure DelCollect where
  results : List EntityResult
  entityIds : List Nat
  relSet : List Nat
  knowledgeIds : List Nat
deriving DecidableEq, Repr

/-- The collection loop of entities.ts `deleteEntities` (lines 186–218): per
name, resolve the entity, fetch its unique knowledge entry, and accumulate
ids.  The loop performs no writes, so every lookup sees the pre-call store.
When the entity exists but has no knowledge entry the source does
`continue`, skipping the `results.push` — such names yield no result. -/
def collectDeletesAux (s : DB) : DelCollect → List String → Except Unit DelCollect
  | c, [] => Except.ok c
  | c, n :: rest =>
    match getEntityFromName s n with
    | some e => do
      let k? ← uniqueKnowledgeFor s e.eid
      match k? with
      | none => collectDeletesAux s { c with entityIds := c.entityIds ++ [e.eid] } rest
      | some k =>
        let res : EntityResult :=
          { success := true, name := n, relationsRemoved? := some k.relations.length }
        collectDeletesAux s
          { results := c.results ++ [res],
            entityIds := c.entityIds ++ [e.eid],
            relSet := jsDedupAux c.relSet k.relations,
            knowledgeIds := c.knowledgeIds ++ [k.kid] } rest
    | none =>
      let res : EntityResult :=
        { success := false, name := n, reason? := some "Entity not found" }
      collectDeletesAux s { c with results := c.results ++ [res] } rest

/-- The collection loop of `deleteEntities` started on empty accumulators. -/
def collectDeletes (s : DB) (names : List String) : Except Unit DelCollect :=
  collectDeletesAux s ⟨[], [], [], []⟩ names

/-- entities.ts `deleteEntities` handler (lines 176–225): collect, then
delete the knowledge entries, the collected relations and the entities, in
that order.  Any `ctx.db.delete` of an unresolvable or repeated id aborts
the whole mutation. -/
def deleteEntities (s : DB) (names : List String) : Except Unit (List EntityResult × DB) :=
  match collectDeletes s names with
  | Except.error e => Except.error e
  | Except.ok c =>
    match deleteManyKnowledgeIds s c.knowledgeIds with
    | Except.error e => Except.error e
    | Except.ok s1 =>
      match deleteManyRelationIds s1 c.relSet with
      | Except.error e => Except.error e
      | Except.ok s2 =>
        match deleteManyEntityIds s2 c.entityIds with
        | Except.error e => Except.error e
        | Except.ok s3 => Except.ok (c.results, s3)

/-- Input item of `createRelations` (names, not ids, plus journal refs). -/
structure RelationInput where
  rfrom : String
  rto : String
  relationType : String
  journalIds : List Nat
deriving DecidableEq, Repr

/-- A validated relation awaiting insertion (`relationsToCreate` items:
relation documents without `_id`). -/
structure RelationToCreate where
  rfrom : Nat
  rto : Nat
  relationType : String
  journalIds : List Nat
deriving DecidableEq, Repr

/-- The duplicate-tuple lookup: scan the `by_from` index of `fromId` for a
relation with the given target and type (`.collect().then(rels =>
rels.find(...))`). -/
def findRelationTuple (s : DB) (fromId toId : Nat) (t : String) : Option Relation :=
  (s.relations.filter (fun r => r.rfrom == fromId)).find?
    (fun r => r.rto == toId && r.relationType == t)

/-- relations.ts `constructValidRelations` (lines 187–263): separate the
batch into per-item failure results (unresolvable endpoint name, or tuple
already present in the store) and relations to create.  The loop performs no
writes, and the name→entity map it prefetches agrees with
`getEntityFromName` on the pre-call store, so per-item direct lookups are
used here.  Duplicate tuples occurring only inside the batch are not
detected. -/
def constructValidRelations (s : DB) :
    List RelationInput → List RelationResult × List RelationToCreate
  | [] => ([], [])
  | it :: rest =>
    let r := constructValidRelations s rest
    match getEntityFromName s it.rfrom, getEntityFromName s it.rto with
    | none, _ =>
      ({ success := false, rfrom := NameOrId.name it.rfrom, rto := NameOrId.name it.rto,
         relationType := it.relationType,
         reason? := some ("Source entity \"" ++ it.rfrom ++ "\" not found") } :: r.1, r.2)
    | some _, none =>
      ({ success := false, rfrom := NameOrId.name it.rfrom, rto := NameOrId.name it.rto,
         relationType := it.relationType,
         reason? := some ("Target entity \"" ++ it.rto ++ "\" not found") } :: r.1, r.2)
    | some fe, some te =>
      match findRelationTuple s fe.eid te.eid it.relationType with
      | some ex =>
        ({ success := false, rfrom := NameOrId.name it.rfrom, rto := NameOrId.name it.rto,
           relationType := it.relationType,
           reason? := some ("Relation " ++ it.rfrom ++ " -> " ++ it.rto ++
             " already exists with id:(" ++ toString ex.rid ++ ")") } :: r.1, r.2)
      | none =>
        (r.1, ⟨fe.eid, te.eid, it.relationType, it.journalIds⟩ :: r.2)

/-- relations.ts `internalCreateRelations` (operations-log append omitted):
insert each validated relation with a fresh id, returning the created
documents (`relationPartials`). -/
def internalCreateRelations : DB → List RelationToCreate → List Relation × DB
  | s, [] => ([], s)
  | s, rc :: rest =>
    let rel : Relation := ⟨s.nextId, rc.rfrom, rc.rto, rc.relationType, rc.journalIds⟩
    let r := internalCreateRelations
      { s with relations := s.relations ++ [rel], nextId := s.nextId + 1 } rest
    (rel :: r.1, r.2)

/-- Ids of the batch relations having `eid` as source — what the attach
step's "from" loop records for `eid`. -/
def fromIdsOf (rels : List Relation) (eid : Nat) : List Nat :=
  (rels.filter (fun r => r.rfrom == eid)).map (fun r => r.rid)

/-- Ids of the batch relations having `eid` as target — what the attach
step's "to" loop records for `eid`. -/
def toIdsOf (rels : List Relation) (eid : Nat) : List Nat :=
  (rels.filter (fun r => r.rto == eid)).map (fun r => r.rid)

/-- One step of `updateKnowledgeWithNewRelations`: fetch-or-create the
knowledge entry of `eid` and record `ids` there.  On an existing entry the
new list is `[...new Set([...existing.relations, ...relationIds])]`; on a
fresh entry the raw `relationIds` list is stored. -/
def attachOne (now : Nat) (ids : List Nat) (eid : Nat) (s : DB) : DB :=
  match s.knowledge.find? (fun k => k.entity == eid) with
  | some k =>
    { s with knowledge := s.knowledge.map (fun d =>
        if d.kid == k.kid then
          { d with relations := jsDedup (d.relations ++ ids), updatedAt := now }
        else d) }
  | none =>
    { s with knowledge := s.knowledge ++ [⟨s.nextId, eid, ids, now⟩],
             nextId := s.nextId + 1 }

/-- The "from" loop of `updateKnowledgeWithNewRelations`: for each distinct
`from` entity, attach the ids of the batch relations having it as source. -/
def attachFromList (now : Nat) (rels : List Relation) : List Nat → DB → DB
  | [], s => s
  | eid :: rest, s =>
    attachFromList now rels rest (attachOne now (fromIdsOf rels eid) eid s)

/-- The "to" loop of `updateKnowledgeWithNewRelations`: entities already
processed as a source are skipped; the rest get the ids of the batch
relations having them as target. -/
def attachToList (now : Nat) (rels : List Relation) (fromEs : List Nat) : List Nat → DB → DB
  | [], s => s
  | eid :: rest, s =>
    if fromEs.contains eid then attachToList now rels fromEs rest s
    else attachToList now rels fromEs rest (attachOne now (toIdsOf rels eid) eid s)

/-- relations.ts `updateKnowledgeWithNewRelations` (lines 78–185), the
knowledge-index attach step (operations-log appends omitted). -/
def updateKnowledgeWithNewRelations (now : Nat) (rels : List Relation) (s : DB) : DB :=
  let fromEs := jsDedup (rels.map (fun r => r.rfrom))
  let toEs := jsDedup (rels.map (fun r => r.rto))
  attachToList now rels fromEs toEs (attachFromList now rels fromEs s)

/-- relations.ts `createRelations` handler (lines 267–303): validate the
whole batch against the pre-call store; if any item is invalid return only
the invalid items' failure results and change nothing; otherwise insert all
validated relations, build their success results and run the attach step.
(The source's defensive length-check throw is unreachable here because the
model returns exactly one created document per validated relation.) -/
def createRelations (now : Nat) (s : DB) (items : List RelationInput) :
    List RelationResult × DB :=
  let v := constructValidRelations s items
  if !v.1.isEmpty then (v.1, s)
  else
    let c := internalCreateRelations s v.2
    let results := c.1.map (fun rel =>
      { success := true, rfrom := NameOrId.nid rel.rfrom, rto := NameOrId.nid rel.rto,
        relationType := rel.relationType, relationId? := some rel.rid : RelationResult })
    (results, updateKnowledgeWithNewRelations now c.1 c.2)

/-- Input item of `deleteRelations` (entity names plus type). -/
structure DeleteRelationItem where
  rfrom : String
  rto : String
  relationType : String
deriving DecidableEq, Repr

/-- The match phase of one `deleteRelations` item: resolve both endpoint
names and find the relation with the exact tuple, returning the source
entity id together with the matched relation id. -/
def matchDeleteItem (s : DB) (it : DeleteRelationItem) : Option (Nat × Nat) :=
  match getEntityFromName s it.rfrom, getEntityFromName s it.rto with
  | some fe, some te =>
    match findRelationTuple s fe.eid te.eid it.relationType with
    | some r => some (fe.eid, r.rid)
    | none => none
  | _, _ => none

/-- The per-item result of `deleteRelations`, computed from the pre-call
store (in the source, every item's lookups run against the pre-call store:
under `Promise.all` each item's reads are issued before any item's writes). -/
def deleteRelationResult (s : DB) (it : DeleteRelationItem) : RelationResult :=
  match getEntityFromName s it.rfrom, getEntityFromName s it.rto with
  | some fe, some te =>
    match findRelationTuple s fe.eid te.eid it.relationType with
    | some _ =>
      { success := true, rfrom := NameOrId.name it.rfrom, rto := NameOrId.name it.rto,
        relationType := it.relationType }
    | none =>
      { success := false, rfrom := NameOrId.name it.rfrom, rto := NameOrId.name it.rto,
        relationType := it.relationType, reason? := some "Relation not found" }
  | _, _ =>
    { success := false, rfrom := NameOrId.name it.rfrom, rto := NameOrId.name it.rto,
      relationType := it.relationType, reason? := some "One or both entities not found" }

/-- The detach patches of `deleteRelations`, applied in item order: for each
matched item `(srcId, rid)`, every knowledge entry of `srcId` is patched to
the entry's pre-call relation list with `rid` filtered out (each item read
the entries before any patch was applied, so a later patch overwrites an
earlier one rather than composing with it). -/
def applyDetachPatches (now : Nat) (orig : List Knowledge) :
    List (Nat × Nat) → List Knowledge → List Knowledge
  | [], k => k
  | (srcId, rid) :: rest, k =>
    applyDetachPatches now orig rest
      (k.map (fun d =>
        if d.entity == srcId then
          match orig.find? (fun o => o.kid == d.kid) with
          | some o =>
            { d with relations := o.relations.filter (fun i => !(i == rid)), updatedAt := now }
          | none => d
        else d))

/-- relations.ts `deleteRelations` handler (lines 308–407).  The handler maps
the batch through `Promise.all`; in the resulting interleaving every item's
entity/relation/knowledge reads are issued before any item's writes, all
knowledge patches are issued before any relation delete, and both writes
then run in item order.  The model therefore matches every item against the
pre-call store, applies the knowledge patches in item order, and deletes the
matched relation ids in item order — throwing if a relation id is deleted
twice (there is no deduplication step). -/
def deleteRelations (now : Nat) (s : DB) (items : List DeleteRelationItem) :
    Except Unit (List RelationResult × DB) :=
  match deleteManyRelationIds
      ⟨s.entities, s.relations,
        applyDetachPatches now s.knowledge (items.filterMap (matchDeleteItem s)) s.knowledge,
        s.nextId⟩
      ((items.filterMap (matchDeleteItem s)).map (fun m => m.2)) with
  | Except.ok s1 => Except.ok (items.map (deleteRelationResult s), s1)
  | Except.error e => Except.error e

/-- Entity shape returned by the read queries. -/
structure EntityOut where
  eid : Nat
  name : String
  entityType : String
  observations : List String
  updatedAt : Nat
deriving DecidableEq, Repr

/-- Relation shape returned by the read queries: endpoint names with the raw
id substituted when the endpoint does not resolve. -/
structure RelationOut where
  rid : Nat
  rfrom : NameOrId
  rto : NameOrId
  relationType : String
  fromEntityId : Nat
  toEntityId : Nat
deriving DecidableEq, Repr

/-- The endpoint rendering `entityMap.get(id)?.name || id`: the entity's
name when the id resolves and the name is truthy, otherwise the raw id. -/
def renderEndpoint (s : DB) (i : Nat) : NameOrId :=
  match lookupEntityById s i with
  | some e => if e.name == "" then NameOrId.nid i else NameOrId.name e.name
  | none => NameOrId.nid i

/-- Render one stored relation for the read queries. -/
def renderRelation (s : DB) (r : Relation) : RelationOut :=
  ⟨r.rid, renderEndpoint s r.rfrom, renderEndpoint s r.rto, r.relationType, r.rfrom, r.rto⟩

/-- Render one stored entity for the read queries. -/
def entityOut (e : Entity) : EntityOut :=
  ⟨e.eid, e.name, e.entityType, e.observations, e.updatedAt⟩

/-- knowledge.ts `readGraph` (lines 8–39): dump every entity and every
relation, endpoint names substituted by raw ids when unresolvable. -/
def readGraph (s : DB) : List EntityOut × List RelationOut :=
  (s.entities.map entityOut, s.relations.map (renderRelation s))

/-- Substring containment on character lists (JavaScript
`String.prototype.includes`). -/
def hasInfixChars (pat : List Char) : List Char → Bool
  | [] => pat.isEmpty
  | c :: rest => pat.isPrefixOf (c :: rest) || hasInfixChars pat rest

/-- JavaScript `a.includes(b)` on strings. -/
def strIncludes (a b : String) : Bool := hasInfixChars b.toList a.toList

/-- Character-wise lowercasing (JavaScript `toLowerCase`), written over the
character list so that concrete evaluation reduces. -/
def jsToLower (s : String) : String := String.mk (s.data.map Char.toLower)

/-- JavaScript `String.prototype.trim`: strip leading and trailing
whitespace, written over the character list. -/
def jsTrim (s : String) : String :=
  String.mk (((s.data.dropWhile Char.isWhitespace).reverse.dropWhile Char.isWhitespace).reverse)

/-- The entity-matching predicate of `searchNodes`: case-insensitive
substring match over name, type and observations (the query is already
lowercased by the caller). -/
def matchesQuery (q : String) (e : Entity) : Bool :=
  strIncludes (jsToLower e.name) q || strIncludes (jsToLower e.entityType) q ||
    e.observations.any (fun o => strIncludes (jsToLower o) q)

/-- knowledge.ts `searchNodes` (lines 44–93): blank queries return nothing;
otherwise matching entities plus every relation incident to one of them,
rendered like `readGraph`. -/
def searchNodes (s : DB) (q : String) : List EntityOut × List RelationOut :=
  if jsTrim q == "" then ([], [])
  else
    let ql := jsToLower q
    let matching := s.entities.filter (matchesQuery ql)
    if matching.isEmpty then ([], [])
    else
      let ids := matching.map (fun e => e.eid)
      let rels := s.relations.filter (fun r => ids.contains r.rfrom || ids.contains r.rto)
      (matching.map entityOut, rels.map (renderRelation s))

/-- knowledge.ts `openNodes` (lines 98–142): the named entities plus every
relation incident to one of them, rendered like `readGraph`. -/
def openNodes (s : DB) (names : List String) : List EntityOut × List RelationOut :=
  if names.isEmpty then ([], [])
  else
    let matching := s.entities.filter (fun e => names.contains e.name)
    if matching.isEmpty then ([], [])
    else
      let ids := matching.map (fun e => e.eid)
      let rels := s.relations.filter (fun r => ids.contains r.rfrom || ids.contains r.rto)
      (matching.map entityOut, rels.map (renderRelation s))

/-! ### Derived notions used by the theorems -/

/-- The ids of the stored relations incident to `eid` (as source or target):
the set the spec says every knowledge entry must equal. -/
def incidentIds (s : DB) (eid : Nat) : List Nat :=
  (s.relations.filter (fun r => r.rfrom == eid || r.rto == eid)).map (fun r => r.rid)

/-- The knowledge-index view at one entity: the relation-id set of the entry
found for `eid`, if any. -/
def kView (s : DB) (eid : Nat) : Option (Finset Nat) :=
  (s.knowledge.find? (fun k => k.entity == eid)).map (fun k => k.relations.toFinset)

/-- Well-formedness of a store: document ids are duplicate-free and below
the fresh-id counter, and no entity owns two knowledge entries.  Every state
produced by the embedded operations from the empty store satisfies this. -/
structure WF (s : DB) : Prop where
  relIdsNodup : (s.relations.map (fun r => r.rid)).Nodup
  relIdsLt : ∀ r ∈ s.relations, r.rid < s.nextId
  kidsNodup : (s.knowledge.map (fun k => k.kid)).Nodup
  kidsLt : ∀ k ∈ s.knowledge, k.kid < s.nextId
  kEntsNodup : (s.knowledge.map (fun k => k.entity)).Nodup

/-- The index-derivability invariant of the spec, in bounded form: every
knowledge entry's relation-id set equals the set of ids of stored relations
incident to its entity and is nonempty, and both endpoints of every stored
relation own a knowledge entry.  Together with `WF.kEntsNodup` this is the
spec's "entry for E equals the derived set, and is absent exactly when that
set is empty". -/
def knowledgeDerived (s : DB) : Prop :=
  (∀ k ∈ s.knowledge,
      k.relations.toFinset = (incidentIds s k.entity).toFinset ∧
      incidentIds s k.entity ≠ []) ∧
  (∀ r ∈ s.relations,
      (∃ k ∈ s.knowledge, k.entity = r.rfrom) ∧ (∃ k ∈ s.knowledge, k.entity = r.rto))

instance (s : DB) : Decidable (knowledgeDerived s) := by
  unfold knowledgeDerived
  infer_instance

/-- No entity is the target of one created relation and the source of a
different one in the same batch (self-loops allowed): the condition under
which a single attach pass records both directions correctly. -/
def noCrossEndpoints (l : List RelationToCreate) : Prop :=
  ∀ rc ∈ l, (∃ rc2 ∈ l, rc2.rfrom = rc.rto) → rc.rfrom = rc.rto

instance (l : List RelationToCreate) : Decidable (noCrossEndpoints l) := by
  unfold noCrossEndpoints
  infer_instance

/-- Names that `deleteEntities` silently drops from its result array: the
entity exists but owns no knowledge entry, so the source's `continue` skips
the `results.push`. -/
def silentlySkipped (s : DB) (n : String) : Bool :=
  match getEntityFromName s n with
  | some e => (s.knowledge.filter (fun k => k.entity == e.eid)).isEmpty
  | none => false

/-- The relation documents `internalCreateRelations` builds: consecutive
fresh ids starting at `n`. -/
def assignIds : Nat → List RelationToCreate → List Relation
  | _, [] => []
  | n, rc :: rest => ⟨n, rc.rfrom, rc.rto, rc.relationType, rc.journalIds⟩ :: assignIds (n + 1) rest

/-! ### Concrete example stores shared by witnesses and counterexamples -/

/-- Example entity input used by the concrete witnesses and counterexamples. -/
def exEntity (n : String) : EntityInput := ⟨n, "person", [], 0, []⟩

/-- Concrete store holding entities A (id 0), B (id 1), C (id 2). -/
def exABC : DB := (createEntities ⟨[], [], [], 0⟩ [exEntity "A", exEntity "B", exEntity "C"]).2

/-- exABC plus relation A→B "knows" (id 3) with its knowledge entries
(A: kid 4, B: kid 5). -/
def exR1 : DB := (createRelations 100 exABC [⟨"A", "B", "knows", []⟩]).2

/-- exR1 plus relation B→C "knows" (id 6) and C's knowledge entry (kid 7). -/
def exR2 : DB := (createRelations 105 exR1 [⟨"B", "C", "knows", []⟩]).2

/-- exR1 with entity B deleted from the entities table only: relation 3 has a
dangling target id. -/
def exDangling : DB := { exR1 with entities := exR1.entities.filter (fun e => !(e.name == "B")) }

/-! ### Helper lemmas about the JavaScript-Set model -/

theorem mem_jsDedupAux {α : Type} [BEq α] [LawfulBEq α] (l : List α) :
    ∀ (acc : List α) (a : α), a ∈ jsDedupAux acc l ↔ a ∈ acc ∨ a ∈ l := by
  induction l with
  | nil => intro acc a; simp [jsDedupAux]
  | cons x xs ih =>
    intro acc a
    simp only [jsDedupAux]
    by_cases hx : acc.contains x
    · rw [if_pos hx, ih]
      have : x ∈ acc := by simpa using hx
      constructor
      · rintro (h | h)
        · exact Or.inl h
        · exact Or.inr (List.mem_cons_of_mem _ h)
      · rintro (h | h)
        · exact Or.inl h
        · rcases List.mem_cons.mp h with rfl | h
          · exact Or.inl this
          · exact Or.inr h
    · rw [if_neg hx, ih]
      simp only [List.mem_append, List.mem_singleton, List.mem_cons]
      tauto

theorem nodup_jsDedupAux {α : Type} [BEq α] [LawfulBEq α] (l : List α) :
    ∀ acc : List α, acc.Nodup → (jsDedupAux acc l).Nodup := by
  induction l with
  | nil => intro acc h; simpa [jsDedupAux] using h
  | cons x xs ih =>
    intro acc h
    simp only [jsDedupAux]
    by_cases hx : acc.contains x
    · rw [if_pos hx]; exact ih acc h
    · rw [if_neg hx]
      refine ih _ ?_
      have hxa : x ∉ acc := by simpa using hx
      simpa [List.nodup_append] using ⟨h, hxa⟩

theorem mem_jsDedup {α : Type} [BEq α] [LawfulBEq α] (l : List α) (a : α) :
    a ∈ jsDedup l ↔ a ∈ l := by
  simp [jsDedup, mem_jsDedupAux]

theorem nodup_jsDedup {α : Type} [BEq α] [LawfulBEq α] (l : List α) :
    (jsDedup l).Nodup :=
  nodup_jsDedupAux l [] List.nodup_nil

theorem jsSetAddAll_fst (l : List String) :
    ∀ acc : List String, (jsSetAddAll acc l).1 = jsDedupAux acc l := by
  induction l with
  | nil => intro acc; rfl
  | cons x xs ih =>
    intro acc
    simp only [jsSetAddAll, jsDedupAux]
    by_cases hx : acc.contains x
    · rw [if_pos hx, if_pos hx, ih]
    · rw [if_neg hx, if_neg hx]
      simpa using ih (acc ++ [x])

/-! ### C6: observation deduplication -/

/-- C6.  Observation deduplication: when `addObservations` is applied to an
entity that resolves by name, the observations it stores for that entity are
the set union (case-sensitive string equality) of the existing observations
and the given contents, and they contain no duplicate string.  (Proved for a
one-item batch, which is the granularity of the claim; each further batch
item is processed the same way against the then-current store.) -/
theorem addObservations_dedup_union (now : Nat) (s : DB) (name : String)
    (contents : List String) (e : Entity)
    (he : getEntityFromName s name = some e) :
    ∀ x ∈ ((addObservations now s [⟨name, contents⟩]).2).entities,
      x.eid = e.eid →
        x.observations.toFinset = e.observations.toFinset ∪ contents.toFinset ∧
        x.observations.Nodup := by
  intro x hx hxe
  have hobs : x.observations = (jsSetAddAll (jsDedup e.observations) contents).1 := by
    simp only [addObservations, he] at hx
    simp only [patchEntityObs, List.mem_map] at hx
    obtain ⟨y, _, hy⟩ := hx
    by_cases hyy : y.eid == e.eid
    · rw [if_pos hyy] at hy; rw [← hy]
    · rw [if_neg hyy] at hy
      exact absurd (by simp [hy, hxe]) hyy
  rw [hobs, jsSetAddAll_fst]
  constructor
  · ext a
    simp [List.mem_toFinset, mem_jsDedupAux, mem_jsDedup]
  · exact nodup_jsDedupAux _ _ (nodup_jsDedup _)

/-- C6 witness: the spec's own example — adding `["x","x","y"]` to an entity
whose observations are `["y"]` leaves exactly the two observations
`{"x","y"}`, duplicate-free. -/
theorem addObservations_dedup_union_witness :
    (getEntityFromName ⟨[⟨0, "A", "p", ["y"], 0, []⟩], [], [], 1⟩ "A" =
      some ⟨0, "A", "p", ["y"], 0, []⟩) ∧
    (∀ x ∈ ((addObservations 7 ⟨[⟨0, "A", "p", ["y"], 0, []⟩], [], [], 1⟩
        [⟨"A", ["x", "x", "y"]⟩]).2).entities,
      x.eid = 0 →
        x.observations.toFinset = (["y"] : List String).toFinset ∪
          (["x", "x", "y"] : List String).toFinset ∧
        x.observations.Nodup) :=
  ⟨by decide,
   addObservations_dedup_union 7 ⟨[⟨0, "A", "p", ["y"], 0, []⟩], [], [], 1⟩ "A"
     ["x", "x", "y"] ⟨0, "A", "p", ["y"], 0, []⟩ (by decide)⟩

/-! ### C10: read-path tolerance of dangling relation endpoints -/

/-- C10.  Read-path tolerance of dangling endpoints: `readGraph` returns
every stored relation, and a relation endpoint whose entity id does not
resolve is rendered as the raw id; `searchNodes` (on a non-blank query) and
`openNodes` return every relation incident to a matching entity, rendered by
the same total substitution — none of the three can fail on a dangling
endpoint. -/
theorem read_path_dangling_tolerant :
    (∀ s : DB, ∀ r ∈ s.relations,
        renderRelation s r ∈ (readGraph s).2 ∧
        (lookupEntityById s r.rfrom = none →
          (renderRelation s r).rfrom = NameOrId.nid r.rfrom) ∧
        (lookupEntityById s r.rto = none →
          (renderRelation s r).rto = NameOrId.nid r.rto)) ∧
    (∀ (s : DB) (q : String), jsTrim q ≠ "" → ∀ r ∈ s.relations,
        (∃ e ∈ s.entities, matchesQuery (jsToLower q) e ∧ (e.eid = r.rfrom ∨ e.eid = r.rto)) →
        renderRelation s r ∈ (searchNodes s q).2) ∧
    (∀ (s : DB) (names : List String), ∀ r ∈ s.relations,
        (∃ e ∈ s.entities, e.name ∈ names ∧ (e.eid = r.rfrom ∨ e.eid = r.rto)) →
        renderRelation s r ∈ (openNodes s names).2) := by
  refine ⟨?_, ?_, ?_⟩
  · intro s r hr
    refine ⟨List.mem_map_of_mem _ hr, ?_, ?_⟩
    · intro hn; simp [renderRelation, renderEndpoint, hn]
    · intro hn; simp [renderRelation, renderEndpoint, hn]
  · intro s q hq r hr ⟨e, he, hm, hinc⟩
    have htrim : (jsTrim q == "") = false := by
      simpa using hq
    have hem : e ∈ s.entities.filter (matchesQuery (jsToLower q)) :=
      List.mem_filter.mpr ⟨he, hm⟩
    have hne : (s.entities.filter (matchesQuery (jsToLower q))).isEmpty = false := by
      cases hmf : s.entities.filter (matchesQuery (jsToLower q)) with
      | nil => rw [hmf] at hem; cases hem
      | cons a l => simp [List.isEmpty]
    simp only [searchNodes, htrim, Bool.false_eq_true, if_false, hne]
    have hcont : (((s.entities.filter (matchesQuery (jsToLower q))).map
        (fun e => e.eid)).contains r.rfrom ||
        ((s.entities.filter (matchesQuery (jsToLower q))).map
        (fun e => e.eid)).contains r.rto) = true := by
      rcases hinc with h | h
      · have hm2 : ((s.entities.filter (matchesQuery (jsToLower q))).map
            (fun e => e.eid)).contains r.rfrom = true :=
          List.elem_iff.mpr (h ▸ List.mem_map_of_mem _ hem)
        simp only [hm2, Bool.true_or]
      · have hm2 : ((s.entities.filter (matchesQuery (jsToLower q))).map
            (fun e => e.eid)).contains r.rto = true :=
          List.elem_iff.mpr (h ▸ List.mem_map_of_mem _ hem)
        simp only [hm2, Bool.or_true]
    exact List.mem_map_of_mem _ (List.mem_filter.mpr ⟨hr, hcont⟩)
  · intro s names r hr ⟨e, he, hmem, hinc⟩
    have hnames : names.isEmpty = false := by
      cases names with
      | nil => cases hmem
      | cons a l => simp [List.isEmpty]
    have hem : e ∈ s.entities.filter (fun e => names.contains e.name) :=
      List.mem_filter.mpr ⟨he, by simpa using List.elem_iff.mpr hmem⟩
    have hne : (s.entities.filter (fun e => names.contains e.name)).isEmpty = false := by
      cases hmf : s.entities.filter (fun e => names.contains e.name) with
      | nil => rw [hmf] at hem; cases hem
      | cons a l => simp [List.isEmpty]
    simp only [openNodes, hnames, Bool.false_eq_true, if_false, hne]
    have hcont : (((s.entities.filter (fun e => names.contains e.name)).map
        (fun e => e.eid)).contains r.rfrom ||
        ((s.entities.filter (fun e => names.contains e.name)).map
        (fun e => e.eid)).contains r.rto) = true := by
      rcases hinc with h | h
      · have hm2 : ((s.entities.filter (fun e => names.contains e.name)).map
            (fun e => e.eid)).contains r.rfrom = true :=
          List.elem_iff.mpr (h ▸ List.mem_map_of_mem _ hem)
        simp only [hm2, Bool.true_or]
      · have hm2 : ((s.entities.filter (fun e => names.contains e.name)).map
            (fun e => e.eid)).contains r.rto = true :=
          List.elem_iff.mpr (h ▸ List.mem_map_of_mem _ hem)
        simp only [hm2, Bool.or_true]
    exact List.mem_map_of_mem _ (List.mem_filter.mpr ⟨hr, hcont⟩)

/-- C10 witness: in the concrete dangling store (relation 3 = A→B where B's
entity record is gone), all three read paths return the relation, rendering
the dangling target as the raw id 1. -/
theorem read_path_dangling_tolerant_witness :
    lookupEntityById exDangling 1 = none ∧
    renderRelation exDangling ⟨3, 0, 1, "knows", []⟩ ∈ (readGraph exDangling).2 ∧
    (renderRelation exDangling ⟨3, 0, 1, "knows", []⟩).rto = NameOrId.nid 1 ∧
    renderRelation exDangling ⟨3, 0, 1, "knows", []⟩ ∈ (searchNodes exDangling "person").2 ∧
    renderRelation exDangling ⟨3, 0, 1, "knows", []⟩ ∈ (openNodes exDangling ["A"]).2 := by
  have h := read_path_dangling_tolerant
  have hr : (⟨3, 0, 1, "knows", []⟩ : Relation) ∈ exDangling.relations := by decide
  have h1 := h.1 exDangling _ hr
  refine ⟨by decide, h1.1, h1.2.2 (by decide), ?_, ?_⟩
  · exact h.2.1 exDangling "person" (by decide) _ hr
      ⟨⟨0, "A", "person", [], 0, []⟩, by decide, by decide, Or.inl (by decide)⟩
  · exact h.2.2 exDangling ["A"] _ hr
      ⟨⟨0, "A", "person", [], 0, []⟩, by decide, by decide, Or.inl (by decide)⟩

/-! ### C9: no deduplication before relation deletion -/

/-- C9.  The claim says a `(from, to, relationType)` triple repeated in one
`deleteRelations` batch leads to a single delete and per-item results.  In
the source there is no deduplication step: both items match the same stored
relation against the pre-call store, and the second `ctx.db.delete` of the
already-deleted id throws, aborting the whole mutation.  Evaluated at the
failing input (store exR1 with relation 3 = A→B "knows"): the call errors
instead of returning two results. -/
theorem deleteRelations_duplicate_throws :
    deleteRelations 104 exR1 [⟨"A", "B", "knows"⟩, ⟨"A", "B", "knows"⟩] = Except.error () ∧
    (matchDeleteItem exR1 ⟨"A", "B", "knows"⟩ = some (0, 3)) := by
  constructor <;> rfl

/-! ### Counterexamples -/

/-- C1 counterexample.  In the consistent store exR2 (A→B is relation 3,
B→C is relation 6; entries A:{3}, B:{3,6}, C:{6}), `deleteEntities ["B"]`
succeeds and deletes both relations, but A's knowledge entry (entity 0, kid
4) still contains the deleted relation id 3 and C's (entity 2, kid 7) still
contains 6 — refuting "the KnowledgeIndex entries of A and C no longer
contain the ids of the deleted relations". -/
theorem deleteEntities_cascade_counterexample :
    knowledgeDerived exR2 ∧
    deleteEntities exR2 ["B"] =
      Except.ok ([{ success := true, name := "B", relationsRemoved? := some 2 }],
        ⟨[⟨0, "A", "person", [], 0, []⟩, ⟨2, "C", "person", [], 0, []⟩], [],
         [⟨4, 0, [3], 100⟩, ⟨7, 2, [6], 105⟩], 8⟩) :=
  ⟨by decide, by rfl⟩

/-- C2 counterexample.  Two concrete failures of index derivability: (i)
after creating A→B (relation 3) and then deleting it through
`deleteRelations`, B's entry (entity 1) still lists the dead id 3 — only the
source endpoint's entry is patched — and A's entry survives empty instead of
being removed; (ii) a single `createRelations` batch `[A→B, B→A]` (created
ids 3, 4) leaves A's entry as {3} although both 3 and 4 are incident to A,
because the attach step's "to" loop skips entities already seen as a source. -/
theorem knowledgeDerived_counterexample :
    (deleteRelations 102 exR1 [⟨"A", "B", "knows"⟩]).map (fun p => p.2) =
      Except.ok ⟨exR1.entities, [], [⟨4, 0, [], 102⟩, ⟨5, 1, [3], 100⟩], 6⟩ ∧
    incidentIds ⟨exR1.entities, [], [⟨4, 0, [], 102⟩, ⟨5, 1, [3], 100⟩], 6⟩ 1 = [] ∧
    ¬ knowledgeDerived ⟨exR1.entities, [], [⟨4, 0, [], 102⟩, ⟨5, 1, [3], 100⟩], 6⟩ ∧
    (createRelations 103 exABC [⟨"A", "B", "knows", []⟩, ⟨"B", "A", "knows", []⟩]).2.knowledge =
      [⟨5, 0, [3], 103⟩, ⟨6, 1, [4], 103⟩] ∧
    incidentIds (createRelations 103 exABC
      [⟨"A", "B", "knows", []⟩, ⟨"B", "A", "knows", []⟩]).2 0 = [3, 4] ∧
    ¬ knowledgeDerived (createRelations 103 exABC
      [⟨"A", "B", "knows", []⟩, ⟨"B", "A", "knows", []⟩]).2 :=
  ⟨by rfl, by rfl, by decide, by rfl, by rfl, by decide⟩

/-- C3 counterexample.  The batch `[A→C (valid), A→B (duplicate of stored
relation 3)]` on exR1: nothing is inserted (the state is returned
unchanged), but the result array has a single entry — the duplicate's
failure — so the individually valid first item receives no result at all,
refuting "every item of the batch receives a failure result". -/
theorem createRelations_allOrNothing_counterexample :
    createRelations 101 exR1 [⟨"A", "C", "knows", []⟩, ⟨"A", "B", "knows", []⟩] =
      ([{ success := false, rfrom := NameOrId.name "A", rto := NameOrId.name "B",
          relationType := "knows",
          reason? := some "Relation A -> B already exists with id:(3)" }], exR1) ∧
    (constructValidRelations exR1
      [⟨"A", "C", "knows", []⟩, ⟨"A", "B", "knows", []⟩]).2.length = 1 :=
  ⟨by rfl, by rfl⟩

/-- C4 counterexample.  (i) `deleteEntities ["A"]` on exABC (A exists but
owns no knowledge entry) succeeds with an empty result array — one input
item, zero results; (ii) `createEntities [D (new), A (existing)]` returns
the conflict for A before the success for D, so results are not in input
order. -/
theorem batch_result_shape_counterexample :
    deleteEntities exABC ["A"] =
      Except.ok ([], ⟨[⟨1, "B", "person", [], 0, []⟩, ⟨2, "C", "person", [], 0, []⟩],
        [], [], 3⟩) ∧
    (createEntities exABC [exEntity "D", exEntity "A"]).1 =
      [{ success := false, name := "A",
         reason? := some "Entity with name A already exists: (0)" },
       { success := true, name := "D", id? := some 3 }] :=
  ⟨by rfl, by rfl⟩

/-- C5 counterexample.  A single batch with the same new name twice creates
both entities: the call returns two successes (no conflict), and afterwards
two stored entities carry the name "X" — refuting "one success and one
conflict" and "at most one stored entity has a given name". -/
theorem entity_name_uniqueness_counterexample :
    (createEntities ⟨[], [], [], 0⟩ [exEntity "X", exEntity "X"]).1 =
      [{ success := true, name := "X", id? := some 0 },
       { success := true, name := "X", id? := some 1 }] ∧
    (createEntities ⟨[], [], [], 0⟩ [exEntity "X", exEntity "X"]).2.entities.countP
      (fun e => e.name == "X") = 2 :=
  ⟨by rfl, by rfl⟩

/-- C8 counterexample.  Attaching the batch {relation 10 : 1→2, relation
11 : 2→1} to an empty index: both given relations touch entity 2, so the
claim's "previous contents ∪ new relation ids" is {10, 11}, but entity 2 is
processed only by the "from" loop and its entry ends up {11}. -/
theorem attach_union_counterexample :
    kView (updateKnowledgeWithNewRelations 9
      [⟨10, 1, 2, "knows", []⟩, ⟨11, 2, 1, "knows", []⟩] ⟨[], [], [], 20⟩) 2 =
      some ({11} : Finset Nat) ∧
    kView (⟨[], [], [], 20⟩ : DB) 2 = none ∧
    (([⟨10, 1, 2, "knows", []⟩, ⟨11, 2, 1, "knows", []⟩] : List Relation).filter
      (fun r => r.rfrom == 2 || r.rto == 2)).map (fun r => r.rid) = [10, 11] ∧
    ¬ (({11} : Finset Nat) = (∅ : Finset Nat) ∪ ([10, 11] : List Nat).toFinset) :=
  ⟨by decide, by rfl, by rfl, by decide⟩

/-! ### C3: relation-batch validation -/

theorem constructValidRelations_length (s : DB) :
    ∀ items : List RelationInput,
      (constructValidRelations s items).1.length +
        (constructValidRelations s items).2.length = items.length := by
  intro items
  induction items with
  | nil => rfl
  | cons it rest ih =>
    simp only [constructValidRelations]
    split
    · simp only [List.length_cons]; omega
    · simp only [List.length_cons]; omega
    · split
      · simp only [List.length_cons]; omega
      · simp only [List.length_cons]; omega

theorem constructValidRelations_failures (s : DB) :
    ∀ items : List RelationInput,
      ∀ r ∈ (constructValidRelations s items).1, r.success = false := by
  intro items
  induction items with
  | nil => intro r hr; cases hr
  | cons it rest ih =>
    intro r hr
    simp only [constructValidRelations] at hr
    split at hr
    · rcases List.mem_cons.mp hr with rfl | hmem
      · rfl
      · exact ih r hmem
    · rcases List.mem_cons.mp hr with rfl | hmem
      · rfl
      · exact ih r hmem
    · split at hr
      · rcases List.mem_cons.mp hr with rfl | hmem
        · rfl
        · exact ih r hmem
      · exact ih r hr

/-- C3, amended.  When a `createRelations` batch has at least one invalid
item (unresolvable endpoint name, or tuple already stored), the call inserts
nothing — the store is returned unchanged — but, contrary to the claim, only
the invalid items receive (failure) results: the result array is exactly the
invalid items' failures, and its length falls short of the batch length by
the number of individually valid items. -/
theorem createRelations_invalid_batch_amended (now : Nat) (s : DB)
    (items : List RelationInput)
    (h : (constructValidRelations s items).1 ≠ []) :
    createRelations now s items = ((constructValidRelations s items).1, s) ∧
    (∀ r ∈ (constructValidRelations s items).1, r.success = false) ∧
    (constructValidRelations s items).1.length +
      (constructValidRelations s items).2.length = items.length := by
  refine ⟨?_, constructValidRelations_failures s items, constructValidRelations_length s items⟩
  have hne : (constructValidRelations s items).1.isEmpty = false := by
    cases hmf : (constructValidRelations s items).1 with
    | nil => exact absurd hmf h
    | cons a l => simp [List.isEmpty]
  simp [createRelations, hne]

/-- C3 witness: the concrete batch `[A→C (valid), A→B (duplicate)]` on exR1
has a nonempty invalid list; the theorem applies and the result is the
single failure with the store unchanged. -/
theorem createRelations_invalid_batch_amended_witness :
    (constructValidRelations exR1 [⟨"A", "C", "knows", []⟩, ⟨"A", "B", "knows", []⟩]).1 ≠ [] ∧
    createRelations 101 exR1 [⟨"A", "C", "knows", []⟩, ⟨"A", "B", "knows", []⟩] =
      ((constructValidRelations exR1 [⟨"A", "C", "knows", []⟩, ⟨"A", "B", "knows", []⟩]).1,
        exR1) :=
  ⟨by decide,
   (createRelations_invalid_batch_amended 101 exR1
     [⟨"A", "C", "knows", []⟩, ⟨"A", "B", "knows", []⟩] (by decide)).1⟩

/-! ### C5: entity-name uniqueness -/

/-- C5, amended.  Creating the same name in two sequential `createEntities`
calls yields a success and then a conflict failure whose reason names the
pre-existing id, leaving the store unchanged on the second call — but within
a single batch the duplicate check only consults the pre-call store, so a
batch holding the same new name twice yields two successes and stores two
entities with that name. -/
theorem entity_name_uniqueness_amended (s : DB) (it it2 : EntityInput)
    (hn : it2.name = it.name) (h : getEntityFromName s it.name = none) :
    createEntities s [it] =
      ([{ success := true, name := it.name, id? := some s.nextId }],
       ⟨s.entities ++
          [⟨s.nextId, it.name, it.entityType, it.observations, it.updatedAt, it.journalIds⟩],
        s.relations, s.knowledge, s.nextId + 1⟩) ∧
    (createEntities (createEntities s [it]).2 [it2]).1 =
      [{ success := false, name := it2.name,
         reason? := some (conflictReason it2.name s.nextId) }] ∧
    (createEntities (createEntities s [it]).2 [it2]).2 = (createEntities s [it]).2 ∧
    ((createEntities s [it, it2]).1).map (fun r => r.success) = [true, true] ∧
    (createEntities s [it, it2]).2.entities.countP (fun e => e.name == it.name) = 2 := by
  have h2 : getEntityFromName s it2.name = none := by rw [hn]; exact h
  have h1 : createEntities s [it] =
      ([{ success := true, name := it.name, id? := some s.nextId }],
       ⟨s.entities ++
          [⟨s.nextId, it.name, it.entityType, it.observations, it.updatedAt, it.journalIds⟩],
        s.relations, s.knowledge, s.nextId + 1⟩) := by
    simp [createEntities, h, internalCreateEntities]
  have hfind : getEntityFromName
      (⟨s.entities ++
          [⟨s.nextId, it.name, it.entityType, it.observations, it.updatedAt, it.journalIds⟩],
        s.relations, s.knowledge, s.nextId + 1⟩ : DB) it2.name =
      some ⟨s.nextId, it.name, it.entityType, it.observations, it.updatedAt, it.journalIds⟩ := by
    show List.find? _ (s.entities ++ [_]) = _
    rw [List.find?_append]
    have hnone : s.entities.find? (fun e => e.name == it2.name) = none := h2
    rw [hnone]
    simp [hn]
  have hc2 : createEntities
      (⟨s.entities ++
          [⟨s.nextId, it.name, it.entityType, it.observations, it.updatedAt, it.journalIds⟩],
        s.relations, s.knowledge, s.nextId + 1⟩ : DB) [it2] =
      ([{ success := false, name := it2.name,
          reason? := some (conflictReason it2.name s.nextId) }],
       ⟨s.entities ++
          [⟨s.nextId, it.name, it.entityType, it.observations, it.updatedAt, it.journalIds⟩],
        s.relations, s.knowledge, s.nextId + 1⟩) := by
    simp [createEntities, hfind, conflictResult]
  have hc3 : createEntities s [it, it2] =
      ([{ success := true, name := it.name, id? := some s.nextId },
        { success := true, name := it2.name, id? := some (s.nextId + 1) }],
       ⟨(s.entities ++
          [⟨s.nextId, it.name, it.entityType, it.observations, it.updatedAt, it.journalIds⟩]) ++
          [⟨s.nextId + 1, it2.name, it2.entityType, it2.observations, it2.updatedAt,
            it2.journalIds⟩],
        s.relations, s.knowledge, s.nextId + 1 + 1⟩) := by
    simp [createEntities, h, h2, internalCreateEntities]
  have hzero : s.entities.countP (fun e => e.name == it.name) = 0 := by
    refine List.countP_eq_zero.mpr ?_
    intro e he
    have := List.find?_eq_none.mp h e he
    simpa using this
  refine ⟨h1, ?_, ?_, ?_, ?_⟩
  · rw [h1]
    simp [hc2]
  · rw [h1]
    simp [hc2]
  · rw [hc3]
    rfl
  · rw [hc3]
    simp [List.countP_append, List.countP_cons, hzero, hn]

/-- C5 witness: on the empty store with the batch `[X, X]`, the theorem's
hypotheses hold; sequentially the second create conflicts naming id 0, and
the single two-item batch stores two entities named X. -/
theorem entity_name_uniqueness_amended_witness :
    (exEntity "X").name = (exEntity "X").name ∧
    getEntityFromName ⟨[], [], [], 0⟩ (exEntity "X").name = none ∧
    ((createEntities ⟨[], [], [], 0⟩ [exEntity "X", exEntity "X"]).1).map
      (fun r => r.success) = [true, true] ∧
    (createEntities ⟨[], [], [], 0⟩ [exEntity "X", exEntity "X"]).2.entities.countP
      (fun e => e.name == (exEntity "X").name) = 2 :=
  ⟨rfl, by decide,
   (entity_name_uniqueness_amended ⟨[], [], [], 0⟩ (exEntity "X") (exEntity "X")
     rfl (by decide)).2.2.2.1,
   (entity_name_uniqueness_amended ⟨[], [], [], 0⟩ (exEntity "X") (exEntity "X")
     rfl (by decide)).2.2.2.2⟩

/-! ### C7: idempotent not-found deletion -/

theorem collectDeletesAux_notfound (s : DB) :
    ∀ names : List String, (∀ n ∈ names, getEntityFromName s n = none) →
      ∀ c : DelCollect,
        collectDeletesAux s c names =
          Except.ok { c with results := c.results ++ names.map (fun n =>
            { success := false, name := n, reason? := some "Entity not found" }) } := by
  intro names
  induction names with
  | nil => intro _ c; simp [collectDeletesAux]
  | cons n rest ih =>
    intro h1 c
    have hn := h1 n (List.mem_cons_self n rest)
    simp only [collectDeletesAux, hn]
    rw [ih (fun m hm => h1 m (List.mem_cons_of_mem _ hm))]
    simp

/-- C7.  Idempotent not-found deletion: when every name of a
`deleteEntities` batch is absent from the store, the call returns (never
throws) one "Entity not found" failure per name and leaves the store
exactly unchanged; likewise `deleteRelations` on a batch in which no item
matches returns one failure per item, with the store unchanged.  Since the
store is returned unchanged, repeating either call any number of times
returns the same results and the same store. -/
theorem notFound_delete_idempotent (now : Nat) (s : DB) (names : List String)
    (items : List DeleteRelationItem)
    (h1 : ∀ n ∈ names, getEntityFromName s n = none)
    (h2 : ∀ it ∈ items, matchDeleteItem s it = none) :
    deleteEntities s names =
      Except.ok (names.map (fun n =>
        { success := false, name := n, reason? := some "Entity not found" }), s) ∧
    deleteRelations now s items = Except.ok (items.map (deleteRelationResult s), s) ∧
    (∀ it ∈ items, (deleteRelationResult s it).success = false) := by
  refine ⟨?_, ?_, ?_⟩
  · have hc := collectDeletesAux_notfound s names h1 ⟨[], [], [], []⟩
    simp only [deleteEntities, collectDeletes, hc]
    rfl
  · have hm : items.filterMap (matchDeleteItem s) = [] :=
      List.filterMap_eq_nil_iff.mpr h2
    simp only [deleteRelations, hm, applyDetachPatches, List.map_nil]
    rfl
  · intro it hit
    have hmi := h2 it hit
    simp only [deleteRelationResult]
    split
    next fe te hf ht =>
      split
      next rr hr =>
        exfalso
        simp [matchDeleteItem, hf, ht, hr] at hmi
      next hr => rfl
    next hf => rfl

/-- C7 witness: deleting the absent name "zzz" and the unmatched relation
triple (a, b, t) on the empty store returns per-item failures and the
unchanged empty store. -/
theorem notFound_delete_idempotent_witness :
    deleteEntities ⟨[], [], [], 0⟩ ["zzz"] =
      Except.ok
        ([{ success := false, name := "zzz", reason? := some "Entity not found" }],
         ⟨[], [], [], 0⟩) ∧
    deleteRelations 7 ⟨[], [], [], 0⟩ [⟨"a", "b", "t"⟩] =
      Except.ok ([deleteRelationResult ⟨[], [], [], 0⟩ ⟨"a", "b", "t"⟩], ⟨[], [], [], 0⟩) ∧
    (deleteRelationResult ⟨[], [], [], 0⟩ ⟨"a", "b", "t"⟩).success = false := by
  have h := notFound_delete_idempotent 7 ⟨[], [], [], 0⟩ ["zzz"] [⟨"a", "b", "t"⟩]
    (by decide) (by decide)
  exact ⟨h.1, h.2.1, h.2.2 _ (List.mem_singleton.mpr rfl)⟩

/-! ### C4: batch result shapes -/

theorem addObservations_names (now : Nat) :
    ∀ (items : List ObservationInput) (s : DB),
      ((addObservations now s items).1).map (fun r => r.name) =
        items.map (fun it => it.entityName) := by
  intro items
  induction items with
  | nil => intro s; rfl
  | cons it rest ih =>
    intro s
    simp only [addObservations]
    cases getEntityFromName s it.entityName with
    | some e => simp [ih]
    | none => simp [ih]

theorem deleteObservations_names (now : Nat) :
    ∀ (items : List DeletionInput) (s : DB),
      ((deleteObservations now s items).1).map (fun r => r.name) =
        items.map (fun it => it.entityName) := by
  intro items
  induction items with
  | nil => intro s; rfl
  | cons it rest ih =>
    intro s
    simp only [deleteObservations]
    cases getEntityFromName s it.entityName with
    | some e => simp [ih]
    | none => simp [ih]

theorem deleteRelations_ok_results (now : Nat) (s : DB) (items : List DeleteRelationItem)
    (res : List RelationResult) (s1 : DB)
    (h : deleteRelations now s items = Except.ok (res, s1)) :
    res = items.map (deleteRelationResult s) := by
  unfold deleteRelations at h
  split at h
  · cases h
    rfl
  · cases h

theorem internalCreateEntities_length :
    ∀ (items : List EntityInput) (s : DB),
      ((internalCreateEntities s items).1).length = items.length := by
  intro items
  induction items with
  | nil => intro s; rfl
  | cons it rest ih => intro s; simp [internalCreateEntities, ih]

theorem internalCreateEntities_names :
    ∀ (items : List EntityInput) (s : DB),
      ((internalCreateEntities s items).1).map (fun r => r.name) =
        items.map (fun it => it.name) := by
  intro items
  induction items with
  | nil => intro s; rfl
  | cons it rest ih => intro s; simp [internalCreateEntities, ih]

theorem conflictResult_name (n : String) (i : Nat) : (conflictResult n i).name = n := rfl

theorem createEntities_failures_names (s : DB) :
    ∀ items : List EntityInput,
      ((items.filterMap (fun it =>
        match getEntityFromName s it.name with
        | some ex => some (conflictResult it.name ex.eid)
        | none => none)).map (fun r => r.name)) =
      (items.filter (fun it => (getEntityFromName s it.name).isSome)).map
        (fun it => it.name) := by
  intro items
  induction items with
  | nil => rfl
  | cons it rest ih =>
    simp only [List.filterMap_cons, List.filter_cons]
    cases hf : getEntityFromName s it.name with
    | some ex => simp [hf, ih, conflictResult_name]
    | none => simp [hf, ih]

theorem createEntities_failures_length (s : DB) :
    ∀ items : List EntityInput,
      (items.filterMap (fun it =>
        match getEntityFromName s it.name with
        | some ex => some (conflictResult it.name ex.eid)
        | none => none)).length +
      (items.filter (fun it => (getEntityFromName s it.name).isNone)).length =
      items.length := by
  intro items
  induction items with
  | nil => rfl
  | cons it rest ih =>
    simp only [List.filterMap_cons, List.filter_cons]
    cases hf : getEntityFromName s it.name with
    | some ex => simp [hf]; omega
    | none => simp [hf]; omega

theorem collectDeletesAux_length (s : DB) :
    ∀ (names : List String) (c c' : DelCollect),
      collectDeletesAux s c names = Except.ok c' →
      c'.results.length + names.countP (silentlySkipped s) =
        c.results.length + names.length := by
  intro names
  induction names with
  | nil =>
    intro c c' h
    simp only [collectDeletesAux] at h
    cases h
    simp
  | cons n rest ih =>
    intro c c' h
    simp only [collectDeletesAux] at h
    cases hf : getEntityFromName s n with
    | none =>
      rw [hf] at h
      have hlen := ih _ _ h
      have hskip : silentlySkipped s n = false := by
        simp [silentlySkipped, hf]
      simp at hlen
      simp [List.countP_cons, hskip]
      omega
    | some e =>
      rw [hf] at h
      simp only [uniqueKnowledgeFor] at h
      cases hfil : s.knowledge.filter (fun k => k.entity == e.eid) with
      | nil =>
        rw [hfil] at h
        have hlen := ih _ _ h
        have hskip : silentlySkipped s n = true := by
          simp [silentlySkipped, hf, hfil, List.isEmpty]
        simp at hlen
        simp [List.countP_cons, hskip]
        omega
      | cons k tail =>
        cases tail with
        | nil =>
          rw [hfil] at h
          have hlen := ih _ _ h
          have hskip : silentlySkipped s n = false := by
            simp [silentlySkipped, hf, hfil, List.isEmpty]
          simp at hlen
          simp [List.countP_cons, hskip]
          omega
        | cons k2 tail2 =>
          rw [hfil] at h
          cases h

theorem deleteEntities_ok_length (s : DB) (names : List String) (res : List EntityResult)
    (s1 : DB) (h : deleteEntities s names = Except.ok (res, s1)) :
    res.length + names.countP (silentlySkipped s) = names.length := by
  unfold deleteEntities at h
  split at h
  · cases h
  next c hc =>
    split at h
    · cases h
    · split at h
      · cases h
      · split at h
        · cases h
        · cases h
          simpa using collectDeletesAux_length s names ⟨[], [], [], []⟩ c hc

/-- C4, amended.  `addObservations`, `deleteObservations` and (when it does
not throw) `deleteRelations` return exactly one result per input item in
input order.  `createEntities` returns one result per input item, but
ordered with all conflict failures first and all successes after them
(each group in input order), not in input order.  `deleteEntities` (when it
does not throw) omits the result of every input name whose entity exists
but owns no knowledge entry, and returns one result for each other name. -/
theorem batch_result_shape_amended :
    (∀ (now : Nat) (s : DB) (items : List ObservationInput),
        ((addObservations now s items).1).map (fun r => r.name) =
          items.map (fun it => it.entityName)) ∧
    (∀ (now : Nat) (s : DB) (items : List DeletionInput),
        ((deleteObservations now s items).1).map (fun r => r.name) =
          items.map (fun it => it.entityName)) ∧
    (∀ (now : Nat) (s : DB) (items : List DeleteRelationItem)
        (res : List RelationResult) (s1 : DB),
        deleteRelations now s items = Except.ok (res, s1) →
        res = items.map (deleteRelationResult s)) ∧
    (∀ (s : DB) (items : List EntityInput),
        ((createEntities s items).1).length = items.length ∧
        ((createEntities s items).1).map (fun r => r.name) =
          (items.filter (fun it => (getEntityFromName s it.name).isSome)).map
            (fun it => it.name) ++
          (items.filter (fun it => (getEntityFromName s it.name).isNone)).map
            (fun it => it.name)) ∧
    (∀ (s : DB) (names : List String) (res : List EntityResult) (s1 : DB),
        deleteEntities s names = Except.ok (res, s1) →
        res.length + names.countP (silentlySkipped s) = names.length) := by
  refine ⟨fun now s items => addObservations_names now items s,
         fun now s items => deleteObservations_names now items s,
         fun now s items res s1 h => deleteRelations_ok_results now s items res s1 h,
         ?_,
         fun s names res s1 h => deleteEntities_ok_length s names res s1 h⟩
  intro s items
  constructor
  · cases hemp : (items.filter (fun it => (getEntityFromName s it.name).isNone)).isEmpty with
    | true =>
      have hnil := List.isEmpty_iff.mp hemp
      have h1 := createEntities_failures_length s items
      rw [hnil] at h1
      simp only [List.length_nil, Nat.add_zero] at h1
      simp [createEntities, hemp, h1]
    | false =>
      have h1 := createEntities_failures_length s items
      have h2 := internalCreateEntities_length
        (items.filter (fun it => (getEntityFromName s it.name).isNone)) s
      simp [createEntities, hemp]
      omega
  · cases hemp : (items.filter (fun it => (getEntityFromName s it.name).isNone)).isEmpty with
    | true =>
      have hnil := List.isEmpty_iff.mp hemp
      simp [createEntities, hemp, createEntities_failures_names s items, hnil]
    | false =>
      simp [createEntities, hemp, createEntities_failures_names s items,
        internalCreateEntities_names]

/-- C4 witness: on exABC, `deleteEntities ["A"]` (A exists with no knowledge
entry) returns zero results for one input, matching the amended count; the
`createEntities` conjunct is instantiated on the reordering batch
`[D (new), A (existing)]`. -/
theorem batch_result_shape_amended_witness :
    (deleteEntities exABC ["A"] =
      Except.ok ([], ⟨[⟨1, "B", "person", [], 0, []⟩, ⟨2, "C", "person", [], 0, []⟩],
        [], [], 3⟩)) ∧
    ((0 : Nat) + (["A"].countP (silentlySkipped exABC)) = 1) ∧
    ((createEntities exABC [exEntity "D", exEntity "A"]).1).length = 2 := by
  have h := batch_result_shape_amended
  refine ⟨by rfl, ?_, ?_⟩
  · have := h.2.2.2.2 exABC ["A"] []
      ⟨[⟨1, "B", "person", [], 0, []⟩, ⟨2, "C", "person", [], 0, []⟩], [], [], 3⟩ (by rfl)
    simpa using this
  · exact (h.2.2.2.1 exABC [exEntity "D", exEntity "A"]).1

/-! ### The attach step: per-entity characterization -/

theorem attachOne_entities (now : Nat) (ids : List Nat) (eid : Nat) (s : DB) :
    (attachOne now ids eid s).entities = s.entities := by
  unfold attachOne; split <;> rfl

theorem attachOne_relations (now : Nat) (ids : List Nat) (eid : Nat) (s : DB) :
    (attachOne now ids eid s).relations = s.relations := by
  unfold attachOne; split <;> rfl

theorem attachOne_nextId (now : Nat) (ids : List Nat) (eid : Nat) (s : DB) :
    s.nextId ≤ (attachOne now ids eid s).nextId := by
  unfold attachOne; split
  · exact Nat.le_refl _
  · exact Nat.le_succ _

theorem kView_attachOne_self (now : Nat) (ids : List Nat) (eid : Nat) (s : DB) :
    kView (attachOne now ids eid s) eid =
      some ((kView s eid).getD ∅ ∪ ids.toFinset) := by
  unfold attachOne
  cases hf : s.knowledge.find? (fun k => k.entity == eid) with
  | none =>
    simp only [kView]
    rw [List.find?_append, hf]
    simp [Finset.empty_union, kView, hf]
  | some k =>
    simp only [kView]
    rw [List.find?_map]
    have hpred : ((fun d : Knowledge => d.entity == eid) ∘
        (fun d : Knowledge => if d.kid == k.kid then
          { d with relations := jsDedup (d.relations ++ ids), updatedAt := now } else d)) =
        (fun d : Knowledge => d.entity == eid) := by
      funext d
      by_cases hd : d.kid = k.kid <;> simp [hd]
    rw [hpred, hf]
    simp only [kView, hf, Option.map_some, Option.map_some', Option.map_map, Option.getD_some]
    congr 1
    rw [if_pos (beq_self_eq_true k.kid)]
    ext a
    simp [jsDedup, mem_jsDedupAux]

theorem kView_attachOne_other (now : Nat) (ids : List Nat) (eid : Nat) (s : DB)
    (hkid : (s.knowledge.map (fun k => k.kid)).Nodup)
    (e2 : Nat) (hne : e2 ≠ eid) :
    kView (attachOne now ids eid s) e2 = kView s e2 := by
  unfold attachOne
  cases hf : s.knowledge.find? (fun k => k.entity == eid) with
  | none =>
    simp only [kView]
    rw [List.find?_append]
    have hb : (eid == e2) = false := by
      simpa using Ne.symm hne
    have h2 : List.find? (fun k : Knowledge => k.entity == e2)
        [⟨s.nextId, eid, ids, now⟩] = none := by
      simp [List.find?, hb]
    rw [h2, Option.or_none]
  | some k =>
    simp only [kView]
    rw [List.find?_map]
    have hpred : ((fun d : Knowledge => d.entity == e2) ∘
        (fun d : Knowledge => if d.kid == k.kid then
          { d with relations := jsDedup (d.relations ++ ids), updatedAt := now } else d)) =
        (fun d : Knowledge => d.entity == e2) := by
      funext d
      by_cases hd : d.kid = k.kid <;> simp [hd]
    rw [hpred]
    cases hf2 : s.knowledge.find? (fun k => k.entity == e2) with
    | none => rfl
    | some d0 =>
      have hd0mem := List.mem_of_find?_eq_some hf2
      have hkmem := List.mem_of_find?_eq_some hf
      have hd0e : d0.entity = e2 := by simpa using List.find?_some hf2
      have hke : k.entity = eid := by simpa using List.find?_some hf
      have hne2 : d0 ≠ k := by
        intro hdk
        exact hne (by rw [← hd0e, hdk, hke])
      have hkidne : d0.kid ≠ k.kid := by
        intro hk2
        exact absurd (List.inj_on_of_nodup_map hkid hd0mem hkmem hk2) hne2
      simp only [Option.map_some, Option.map_some']
      rw [if_neg (by simpa using hkidne)]

theorem WF_attachOne (now : Nat) (ids : List Nat) (eid : Nat) (s : DB) (h : WF s) :
    WF (attachOne now ids eid s) := by
  unfold attachOne
  cases hf : s.knowledge.find? (fun k => k.entity == eid) with
  | some k =>
    have hkid : ∀ d : Knowledge,
        (if d.kid == k.kid then
          { d with relations := jsDedup (d.relations ++ ids), updatedAt := now } else d).kid
          = d.kid := by
      intro d; by_cases hd : d.kid = k.kid <;> simp [hd]
    have hent : ∀ d : Knowledge,
        (if d.kid == k.kid then
          { d with relations := jsDedup (d.relations ++ ids), updatedAt := now } else d).entity
          = d.entity := by
      intro d; by_cases hd : d.kid = k.kid <;> simp [hd]
    refine ⟨h.relIdsNodup, h.relIdsLt, ?_, ?_, ?_⟩
    · show ((s.knowledge.map (fun d => if d.kid == k.kid then
          { d with relations := jsDedup (d.relations ++ ids), updatedAt := now } else d)).map
          (fun x => x.kid)).Nodup
      rw [List.map_map]
      have heq : ((fun x : Knowledge => x.kid) ∘ (fun d : Knowledge =>
          if d.kid == k.kid then
            { d with relations := jsDedup (d.relations ++ ids), updatedAt := now } else d)) =
          (fun x : Knowledge => x.kid) := by
        funext d
        exact hkid d
      rw [heq]
      exact h.kidsNodup
    · intro d hd
      simp only [List.mem_map] at hd
      obtain ⟨d0, hd0, rfl⟩ := hd
      rw [hkid d0]
      exact h.kidsLt d0 hd0
    · show ((s.knowledge.map (fun d => if d.kid == k.kid then
          { d with relations := jsDedup (d.relations ++ ids), updatedAt := now } else d)).map
          (fun x => x.entity)).Nodup
      rw [List.map_map]
      have heq : ((fun x : Knowledge => x.entity) ∘ (fun d : Knowledge =>
          if d.kid == k.kid then
            { d with relations := jsDedup (d.relations ++ ids), updatedAt := now } else d)) =
          (fun x : Knowledge => x.entity) := by
        funext d
        exact hent d
      rw [heq]
      exact h.kEntsNodup
  | none =>
    refine ⟨h.relIdsNodup, ?_, ?_, ?_, ?_⟩
    · intro r hr
      exact Nat.lt_succ_of_lt (h.relIdsLt r hr)
    · rw [List.map_append, List.nodup_append]
      refine ⟨h.kidsNodup, by simp, ?_⟩
      intro x hx
      simp only [List.mem_map] at hx
      obtain ⟨d0, hd0, rfl⟩ := hx
      intro hmem
      simp only [List.map_cons, List.map_nil, List.mem_singleton] at hmem
      exact absurd hmem (Nat.ne_of_lt (h.kidsLt d0 hd0))
    · intro d hd
      rcases List.mem_append.mp hd with hd | hd
      · exact Nat.lt_succ_of_lt (h.kidsLt d hd)
      · simp only [List.mem_singleton] at hd
        subst hd
        exact Nat.lt_succ_self _
    · rw [List.map_append, List.nodup_append]
      refine ⟨h.kEntsNodup, by simp, ?_⟩
      intro x hx
      simp only [List.mem_map] at hx
      obtain ⟨d0, hd0, rfl⟩ := hx
      intro hmem
      simp only [List.map_cons, List.map_nil, List.mem_singleton] at hmem
      have := List.find?_eq_none.mp hf d0 hd0
      simp only [beq_iff_eq] at this
      exact this hmem

theorem attachFromList_props (now : Nat) (rels : List Relation) :
    ∀ (es : List Nat) (s : DB), WF s → es.Nodup →
      WF (attachFromList now rels es s) ∧
      (attachFromList now rels es s).entities = s.entities ∧
      (attachFromList now rels es s).relations = s.relations ∧
      s.nextId ≤ (attachFromList now rels es s).nextId ∧
      (∀ eid ∈ es,
        kView (attachFromList now rels es s) eid =
          some ((kView s eid).getD ∅ ∪ (fromIdsOf rels eid).toFinset)) ∧
      (∀ eid, eid ∉ es → kView (attachFromList now rels es s) eid = kView s eid) := by
  intro es
  induction es with
  | nil =>
    intro s hwf _
    exact ⟨hwf, rfl, rfl, Nat.le_refl _,
      fun eid h => absurd h (List.not_mem_nil eid), fun eid _ => rfl⟩
  | cons e0 rest ih =>
    intro s hwf hnd
    have hnd' := List.nodup_cons.mp hnd
    have hwf' : WF (attachOne now (fromIdsOf rels e0) e0 s) := WF_attachOne _ _ _ _ hwf
    obtain ⟨w1, w2, w3, w4, w5, w6⟩ :=
      ih (attachOne now (fromIdsOf rels e0) e0 s) hwf' hnd'.2
    simp only [attachFromList]
    refine ⟨w1, ?_, ?_, ?_, ?_, ?_⟩
    · rw [w2, attachOne_entities]
    · rw [w3, attachOne_relations]
    · exact le_trans (attachOne_nextId _ _ _ _) w4
    · intro eid hmem
      rcases List.mem_cons.mp hmem with rfl | hmem
      · rw [w6 eid hnd'.1, kView_attachOne_self]
      · have hne : eid ≠ e0 := fun h => hnd'.1 (h ▸ hmem)
        rw [w5 eid hmem, kView_attachOne_other now _ e0 s hwf.kidsNodup eid hne]
    · intro eid hnm
      have h1 : eid ∉ rest := fun h => hnm (List.mem_cons_of_mem _ h)
      have h2 : eid ≠ e0 := fun h => hnm (h ▸ List.mem_cons_self e0 rest)
      rw [w6 eid h1, kView_attachOne_other now _ e0 s hwf.kidsNodup eid h2]

theorem attachToList_props (now : Nat) (rels : List Relation) (fromEs : List Nat) :
    ∀ (es : List Nat) (s : DB), WF s → es.Nodup →
      WF (attachToList now rels fromEs es s) ∧
      (attachToList now rels fromEs es s).entities = s.entities ∧
      (attachToList now rels fromEs es s).relations = s.relations ∧
      s.nextId ≤ (attachToList now rels fromEs es s).nextId ∧
      (∀ eid ∈ es, eid ∉ fromEs →
        kView (attachToList now rels fromEs es s) eid =
          some ((kView s eid).getD ∅ ∪ (toIdsOf rels eid).toFinset)) ∧
      (∀ eid, eid ∉ es ∨ eid ∈ fromEs →
        kView (attachToList now rels fromEs es s) eid = kView s eid) := by
  intro es
  induction es with
  | nil =>
    intro s hwf _
    exact ⟨hwf, rfl, rfl, Nat.le_refl _,
      fun eid h => absurd h (List.not_mem_nil eid), fun eid _ => rfl⟩
  | cons e0 rest ih =>
    intro s hwf hnd
    have hnd' := List.nodup_cons.mp hnd
    by_cases h0 : e0 ∈ fromEs
    · have hc : fromEs.contains e0 = true := List.elem_iff.mpr h0
      obtain ⟨w1, w2, w3, w4, w5, w6⟩ := ih s hwf hnd'.2
      simp only [attachToList, hc, if_true]
      refine ⟨w1, w2, w3, w4, ?_, ?_⟩
      · intro eid hmem hnf
        rcases List.mem_cons.mp hmem with rfl | hmem
        · exact absurd h0 hnf
        · exact w5 eid hmem hnf
      · intro eid hc2
        rcases hc2 with hnm | hin
        · exact w6 eid (Or.inl (fun h => hnm (List.mem_cons_of_mem _ h)))
        · exact w6 eid (Or.inr hin)
    · have hc : fromEs.contains e0 = false := by
        cases hcc : fromEs.contains e0 with
        | false => rfl
        | true => exact absurd (List.elem_iff.mp hcc) h0
      have hwf' : WF (attachOne now (toIdsOf rels e0) e0 s) := WF_attachOne _ _ _ _ hwf
      obtain ⟨w1, w2, w3, w4, w5, w6⟩ :=
        ih (attachOne now (toIdsOf rels e0) e0 s) hwf' hnd'.2
      simp only [attachToList, hc, Bool.false_eq_true, if_false]
      refine ⟨w1, ?_, ?_, ?_, ?_, ?_⟩
      · rw [w2, attachOne_entities]
      · rw [w3, attachOne_relations]
      · exact le_trans (attachOne_nextId _ _ _ _) w4
      · intro eid hmem hnf
        rcases List.mem_cons.mp hmem with rfl | hmem
        · rw [w6 eid (Or.inl hnd'.1), kView_attachOne_self]
        · have hne : eid ≠ e0 := fun h => hnd'.1 (h ▸ hmem)
          rw [w5 eid hmem hnf, kView_attachOne_other now _ e0 s hwf.kidsNodup eid hne]
      · intro eid hc2
        have hne : eid ≠ e0 := by
          rcases hc2 with hnm | hin
          · exact fun h => hnm (h ▸ List.mem_cons_self e0 rest)
          · exact fun h => h0 (h ▸ hin)
        have h1 : eid ∉ rest ∨ eid ∈ fromEs := by
          rcases hc2 with hnm | hin
          · exact Or.inl (fun h => hnm (List.mem_cons_of_mem _ h))
          · exact Or.inr hin
        rw [w6 eid h1, kView_attachOne_other now _ e0 s hwf.kidsNodup eid hne]

/-- Per-entity effect of the attach step `updateKnowledgeWithNewRelations`:
it touches only the knowledge table; an entity occurring as a source of some
batch relation gets its entry set unioned with the batch ids having it as
source; an entity occurring only as a target gets the ids having it as
target; all other entries are untouched.  Well-formedness is preserved. -/
theorem attach_characterization (now : Nat) (rels : List Relation) (s : DB) (hwf : WF s) :
    WF (updateKnowledgeWithNewRelations now rels s) ∧
    (updateKnowledgeWithNewRelations now rels s).entities = s.entities ∧
    (updateKnowledgeWithNewRelations now rels s).relations = s.relations ∧
    s.nextId ≤ (updateKnowledgeWithNewRelations now rels s).nextId ∧
    ∀ eid,
      kView (updateKnowledgeWithNewRelations now rels s) eid =
        (if eid ∈ rels.map (fun r => r.rfrom) then
          some ((kView s eid).getD ∅ ∪ (fromIdsOf rels eid).toFinset)
        else if eid ∈ rels.map (fun r => r.rto) then
          some ((kView s eid).getD ∅ ∪ (toIdsOf rels eid).toFinset)
        else kView s eid) := by
  obtain ⟨f1, f2, f3, f4, f5, f6⟩ :=
    attachFromList_props now rels (jsDedup (rels.map (fun r => r.rfrom))) s hwf
      (nodup_jsDedup _)
  obtain ⟨t1, t2, t3, t4, t5, t6⟩ :=
    attachToList_props now rels (jsDedup (rels.map (fun r => r.rfrom)))
      (jsDedup (rels.map (fun r => r.rto)))
      (attachFromList now rels (jsDedup (rels.map (fun r => r.rfrom))) s) f1
      (nodup_jsDedup _)
  simp only [updateKnowledgeWithNewRelations]
  refine ⟨t1, by rw [t2, f2], by rw [t3, f3], le_trans f4 t4, ?_⟩
  intro eid
  by_cases hof : eid ∈ rels.map (fun r => r.rfrom)
  · have hof' : eid ∈ jsDedup (rels.map (fun r => r.rfrom)) := (mem_jsDedup _ _).mpr hof
    rw [if_pos hof, t6 eid (Or.inr hof'), f5 eid hof']
  · have hof' : eid ∉ jsDedup (rels.map (fun r => r.rfrom)) :=
      fun h => hof ((mem_jsDedup _ _).mp h)
    rw [if_neg hof]
    by_cases hot : eid ∈ rels.map (fun r => r.rto)
    · have hot' : eid ∈ jsDedup (rels.map (fun r => r.rto)) := (mem_jsDedup _ _).mpr hot
      rw [if_pos hot, t5 eid hot' hof', f6 eid hof']
    · have hot' : eid ∉ jsDedup (rels.map (fun r => r.rto)) :=
        fun h => hot ((mem_jsDedup _ _).mp h)
      rw [if_neg hot, t6 eid (Or.inl hot'), f6 eid hof']

/-! ### C8: attach idempotence -/

/-- C8, amended.  The attach step is idempotent: applying
`updateKnowledgeWithNewRelations` twice with the same relations leaves every
entity's entry relation-set as after one application (re-attaching an
already-present id is a no-op).  However, the per-entity union formula of
the claim only holds in the corrected form: an entity that is the source of
some batch relation receives `previous ∪ (ids with it as source)` — the ids
of batch relations having it only as target are not added (the "to" loop
skips entities already processed as sources); an entity occurring only as a
target receives `previous ∪ (ids with it as target)`. -/
theorem attach_idempotent_amended (now1 now2 : Nat) (rels : List Relation) (s : DB)
    (hwf : WF s) :
    (∀ eid,
      kView (updateKnowledgeWithNewRelations now2 rels
        (updateKnowledgeWithNewRelations now1 rels s)) eid =
      kView (updateKnowledgeWithNewRelations now1 rels s) eid) ∧
    (∀ eid,
      kView (updateKnowledgeWithNewRelations now1 rels s) eid =
        (if eid ∈ rels.map (fun r => r.rfrom) then
          some ((kView s eid).getD ∅ ∪ (fromIdsOf rels eid).toFinset)
        else if eid ∈ rels.map (fun r => r.rto) then
          some ((kView s eid).getD ∅ ∪ (toIdsOf rels eid).toFinset)
        else kView s eid)) := by
  obtain ⟨w1, _, _, _, w5⟩ := attach_characterization now1 rels s hwf
  obtain ⟨_, _, _, _, v5⟩ := attach_characterization now2 rels
    (updateKnowledgeWithNewRelations now1 rels s) w1
  refine ⟨?_, w5⟩
  intro eid
  rw [v5 eid, w5 eid]
  by_cases hof : eid ∈ rels.map (fun r => r.rfrom) <;>
    by_cases hot : eid ∈ rels.map (fun r => r.rto) <;>
    simp [hof, hot, Finset.union_assoc, Finset.union_self]

/-- C8 witness: the theorem applied to the concrete mixed batch
{10 : 1→2, 11 : 2→1} on an empty, well-formed store, evaluated at entity 2:
a second attach changes nothing, and the one-pass entry is the
source-ids-only set. -/
theorem attach_idempotent_amended_witness :
    kView (updateKnowledgeWithNewRelations 8
        [⟨10, 1, 2, "knows", []⟩, ⟨11, 2, 1, "knows", []⟩]
        (updateKnowledgeWithNewRelations 9
          [⟨10, 1, 2, "knows", []⟩, ⟨11, 2, 1, "knows", []⟩] ⟨[], [], [], 20⟩)) 2 =
      kView (updateKnowledgeWithNewRelations 9
        [⟨10, 1, 2, "knows", []⟩, ⟨11, 2, 1, "knows", []⟩] ⟨[], [], [], 20⟩) 2 ∧
    kView (updateKnowledgeWithNewRelations 9
        [⟨10, 1, 2, "knows", []⟩, ⟨11, 2, 1, "knows", []⟩] ⟨[], [], [], 20⟩) 2 =
      some ((kView (⟨[], [], [], 20⟩ : DB) 2).getD ∅ ∪
        (fromIdsOf [⟨10, 1, 2, "knows", []⟩, ⟨11, 2, 1, "knows", []⟩] 2).toFinset) := by
  have hwf : WF ⟨[], [], [], 20⟩ :=
    ⟨by decide, by decide, by decide, by decide, by decide⟩
  have h := attach_idempotent_amended 9 8
    [⟨10, 1, 2, "knows", []⟩, ⟨11, 2, 1, "knows", []⟩] ⟨[], [], [], 20⟩ hwf
  refine ⟨h.1 2, ?_⟩
  have h2 := h.2 2
  rw [h2]
  rw [if_pos (by decide)]

/-! ### C2: index derivability -/

theorem internalCreateRelations_eq :
    ∀ (l : List RelationToCreate) (s : DB),
      internalCreateRelations s l =
        (assignIds s.nextId l,
         ⟨s.entities, s.relations ++ assignIds s.nextId l, s.knowledge,
          s.nextId + l.length⟩) := by
  intro l
  induction l with
  | nil => intro s; simp [internalCreateRelations, assignIds]
  | cons rc rest ih =>
    intro s
    simp only [internalCreateRelations, ih, assignIds, Prod.mk.injEq, DB.mk.injEq,
      List.append_assoc, List.singleton_append, List.length_cons, true_and]
    omega

theorem assignIds_rid_bounds :
    ∀ (l : List RelationToCreate) (n : Nat) (r : Relation),
      r ∈ assignIds n l → n ≤ r.rid ∧ r.rid < n + l.length := by
  intro l
  induction l with
  | nil => intro n r hr; cases hr
  | cons rc rest ih =>
    intro n r hr
    rcases List.mem_cons.mp hr with rfl | hr
    · simp only [List.length_cons]
      omega
    · have := ih (n + 1) r hr
      simp only [List.length_cons]
      omega

theorem assignIds_rids_nodup :
    ∀ (l : List RelationToCreate) (n : Nat),
      ((assignIds n l).map (fun r => r.rid)).Nodup := by
  intro l
  induction l with
  | nil => intro n; exact List.nodup_nil
  | cons rc rest ih =>
    intro n
    simp only [assignIds, List.map_cons]
    rw [List.nodup_cons]
    refine ⟨?_, ih (n + 1)⟩
    intro hmem
    simp only [List.mem_map] at hmem
    obtain ⟨r, hr, hrid⟩ := hmem
    have := (assignIds_rid_bounds rest (n + 1) r hr).1
    omega

theorem assignIds_pairs :
    ∀ (l : List RelationToCreate) (n : Nat) (r : Relation),
      r ∈ assignIds n l → ∃ rc ∈ l, rc.rfrom = r.rfrom ∧ rc.rto = r.rto := by
  intro l
  induction l with
  | nil => intro n r hr; cases hr
  | cons rc rest ih =>
    intro n r hr
    rcases List.mem_cons.mp hr with rfl | hr
    · exact ⟨rc, List.mem_cons_self rc rest, rfl, rfl⟩
    · obtain ⟨rc2, hrc2, h1, h2⟩ := ih (n + 1) r hr
      exact ⟨rc2, List.mem_cons_of_mem _ hrc2, h1, h2⟩

theorem assignIds_noCross (l : List RelationToCreate) (n : Nat) (h : noCrossEndpoints l) :
    ∀ r ∈ assignIds n l,
      (∃ r2 ∈ assignIds n l, r2.rfrom = r.rto) → r.rfrom = r.rto := by
  intro r hr hex
  obtain ⟨r2, hr2, he⟩ := hex
  obtain ⟨rc, hrc, hf, ht⟩ := assignIds_pairs l n r hr
  obtain ⟨rc2, hrc2, hf2, _⟩ := assignIds_pairs l n r2 hr2
  rw [← hf, ← ht]
  exact h rc hrc ⟨rc2, hrc2, by rw [hf2, he, ht]⟩

theorem kView_of_mem (s : DB) (hents : (s.knowledge.map (fun k => k.entity)).Nodup)
    (k : Knowledge) (hk : k ∈ s.knowledge) :
    kView s k.entity = some k.relations.toFinset := by
  unfold kView
  have hsome : (s.knowledge.find? (fun d => d.entity == k.entity)).isSome := by
    rw [List.find?_isSome]
    exact ⟨k, hk, by simp⟩
  obtain ⟨k', hk'⟩ := Option.isSome_iff_exists.mp hsome
  rw [hk']
  have hk'mem := List.mem_of_find?_eq_some hk'
  have hk'e : k'.entity = k.entity := by simpa using List.find?_some hk'
  rw [List.inj_on_of_nodup_map hents hk'mem hk hk'e]
  rfl

theorem exists_entry_iff_kView (s : DB) (x : Nat) :
    (∃ k ∈ s.knowledge, k.entity = x) ↔ (kView s x).isSome := by
  unfold kView
  rw [Option.isSome_map', List.find?_isSome]
  constructor
  · rintro ⟨k, hk, he⟩
    exact ⟨k, hk, by simp [he]⟩
  · rintro ⟨k, hk, he⟩
    exact ⟨k, hk, by simpa using he⟩

theorem kView_getD (s : DB) (hinv : knowledgeDerived s) (eid : Nat) :
    (kView s eid).getD ∅ = (incidentIds s eid).toFinset := by
  cases hv : kView s eid with
  | some X =>
    unfold kView at hv
    cases hf : s.knowledge.find? (fun d => d.entity == eid) with
    | none => rw [hf] at hv; cases hv
    | some k0 =>
      rw [hf] at hv
      simp only [Option.map_some, Option.map_some'] at hv
      have hX := Option.some.inj hv
      have hmem := List.mem_of_find?_eq_some hf
      have he : k0.entity = eid := by simpa using List.find?_some hf
      have hk0 := (hinv.1 k0 hmem).1
      rw [Option.getD_some, ← hX, hk0, he]
  | none =>
    rw [Option.getD_none]
    have hemp : incidentIds s eid = [] := by
      by_contra hne
      obtain ⟨i, hi⟩ := List.exists_mem_of_ne_nil _ hne
      unfold incidentIds at hi
      simp only [List.mem_map, List.mem_filter] at hi
      obtain ⟨r, ⟨hrmem, hrpred⟩, rfl⟩ := hi
      have hcases : r.rfrom = eid ∨ r.rto = eid := by
        simpa using hrpred
      have hk : ∃ k ∈ s.knowledge, k.entity = eid := by
        rcases hcases with he | he
        · obtain ⟨k, hk, hke⟩ := (hinv.2 r hrmem).1
          exact ⟨k, hk, by rw [hke, he]⟩
        · obtain ⟨k, hk, hke⟩ := (hinv.2 r hrmem).2
          exact ⟨k, hk, by rw [hke, he]⟩
      have := (exists_entry_iff_kView s eid).mp hk
      rw [hv] at this
      cases this
    rw [hemp]
    rfl

theorem toIds_subset_fromIds (rels : List Relation)
    (hnc : ∀ r ∈ rels, (∃ r2 ∈ rels, r2.rfrom = r.rto) → r.rfrom = r.rto)
    (eid : Nat) (hf : eid ∈ rels.map (fun r => r.rfrom)) :
    (toIdsOf rels eid).toFinset ⊆ (fromIdsOf rels eid).toFinset := by
  intro i hi
  simp only [toIdsOf, List.mem_toFinset, List.mem_map, List.mem_filter] at hi
  obtain ⟨r, ⟨hrmem, hrto⟩, rfl⟩ := hi
  have hrto' : r.rto = eid := by simpa using hrto
  simp only [List.mem_map] at hf
  obtain ⟨r2, hr2, hf2⟩ := hf
  have hself := hnc r hrmem ⟨r2, hr2, by rw [hf2, ← hrto']⟩
  simp only [fromIdsOf, List.mem_toFinset, List.mem_map, List.mem_filter]
  exact ⟨r, ⟨hrmem, by simp [hself, hrto']⟩, rfl⟩

theorem incident_split (rels : List Relation) (eid : Nat) :
    ((rels.filter (fun r => r.rfrom == eid || r.rto == eid)).map
      (fun r => r.rid)).toFinset =
      (fromIdsOf rels eid).toFinset ∪ (toIdsOf rels eid).toFinset := by
  ext a
  simp only [fromIdsOf, toIdsOf, List.mem_toFinset, Finset.mem_union, List.mem_map,
    List.mem_filter, Bool.or_eq_true]
  constructor
  · rintro ⟨r, ⟨hm, hp | hp⟩, rfl⟩
    · exact Or.inl ⟨r, ⟨hm, hp⟩, rfl⟩
    · exact Or.inr ⟨r, ⟨hm, hp⟩, rfl⟩
  · rintro (⟨r, ⟨hm, hp⟩, rfl⟩ | ⟨r, ⟨hm, hp⟩, rfl⟩)
    · exact ⟨r, ⟨hm, Or.inl hp⟩, rfl⟩
    · exact ⟨r, ⟨hm, Or.inr hp⟩, rfl⟩

theorem fromIdsOf_eq_nil (rels : List Relation) (eid : Nat)
    (h : eid ∉ rels.map (fun r => r.rfrom)) : fromIdsOf rels eid = [] := by
  unfold fromIdsOf
  rw [List.filter_eq_nil_iff.mpr, List.map_nil]
  intro r hr
  simp only [beq_iff_eq]
  intro he
  exact h (List.mem_map.mpr ⟨r, hr, he⟩)

theorem toIdsOf_eq_nil (rels : List Relation) (eid : Nat)
    (h : eid ∉ rels.map (fun r => r.rto)) : toIdsOf rels eid = [] := by
  unfold toIdsOf
  rw [List.filter_eq_nil_iff.mpr, List.map_nil]
  intro r hr
  simp only [beq_iff_eq]
  intro he
  exact h (List.mem_map.mpr ⟨r, hr, he⟩)

theorem knowledgeDerived_attach_generic (now : Nat) (s : DB) (nr : List Relation)
    (n2 : Nat) (hwf : WF s) (hinv : knowledgeDerived s)
    (hnrd : (nr.map (fun r => r.rid)).Nodup)
    (hfresh : ∀ r ∈ nr, s.nextId ≤ r.rid)
    (hbound : ∀ r ∈ nr, r.rid < n2)
    (hn2 : s.nextId ≤ n2)
    (hnc2 : ∀ r ∈ nr, (∃ r2 ∈ nr, r2.rfrom = r.rto) → r.rfrom = r.rto) :
    WF (updateKnowledgeWithNewRelations now nr
      ⟨s.entities, s.relations ++ nr, s.knowledge, n2⟩) ∧
    knowledgeDerived (updateKnowledgeWithNewRelations now nr
      ⟨s.entities, s.relations ++ nr, s.knowledge, n2⟩) := by
  have hwf1 : WF (⟨s.entities, s.relations ++ nr, s.knowledge, n2⟩ : DB) := by
    refine ⟨?_, ?_, hwf.kidsNodup, ?_, hwf.kEntsNodup⟩
    · show ((s.relations ++ nr).map (fun r => r.rid)).Nodup
      rw [List.map_append, List.nodup_append]
      refine ⟨hwf.relIdsNodup, hnrd, ?_⟩
      intro x hx hmem
      simp only [List.mem_map] at hx hmem
      obtain ⟨r, hr, rfl⟩ := hx
      obtain ⟨r2, hr2, heq⟩ := hmem
      have h1 := hwf.relIdsLt r hr
      have h2 := hfresh r2 hr2
      omega
    · intro r hr
      rcases List.mem_append.mp hr with hr | hr
      · have := hwf.relIdsLt r hr
        show r.rid < n2
        omega
      · exact hbound r hr
    · intro k hk
      have := hwf.kidsLt k hk
      show k.kid < n2
      omega
  obtain ⟨c1, c2, c3, c4, c5⟩ := attach_characterization now nr
    ⟨s.entities, s.relations ++ nr, s.knowledge, n2⟩ hwf1
  have hkv1 : ∀ x, kView (⟨s.entities, s.relations ++ nr, s.knowledge, n2⟩ : DB) x =
      kView s x := fun x => rfl
  have hlist : ∀ x, incidentIds (updateKnowledgeWithNewRelations now nr
      ⟨s.entities, s.relations ++ nr, s.knowledge, n2⟩) x =
      incidentIds s x ++ ((nr.filter (fun r => r.rfrom == x || r.rto == x)).map
        (fun r => r.rid)) := by
    intro x
    unfold incidentIds
    rw [c3]
    show (((s.relations ++ nr).filter _).map _) = _
    rw [List.filter_append, List.map_append]
  have hinc : ∀ x, (incidentIds (updateKnowledgeWithNewRelations now nr
      ⟨s.entities, s.relations ++ nr, s.knowledge, n2⟩) x).toFinset =
      (incidentIds s x).toFinset ∪
        ((fromIdsOf nr x).toFinset ∪ (toIdsOf nr x).toFinset) := by
    intro x
    rw [hlist x, List.toFinset_append, incident_split]
  refine ⟨c1, ?_, ?_⟩
  · -- every entry of the new store equals the derived set and is nonempty
    intro k hk
    have hkv2 := kView_of_mem _ c1.kEntsNodup k hk
    have hform := c5 k.entity
    have hgd : (kView (⟨s.entities, s.relations ++ nr, s.knowledge, n2⟩ : DB)
        k.entity).getD ∅ = (incidentIds s k.entity).toFinset := by
      rw [hkv1, kView_getD s hinv]
    by_cases hof : k.entity ∈ nr.map (fun r => r.rfrom)
    · rw [if_pos hof] at hform
      have hset := Option.some.inj (hform.symm.trans hkv2)
      constructor
      · rw [← hset, hgd, hinc]
        have hsub := toIds_subset_fromIds nr hnc2 k.entity hof
        rw [Finset.union_eq_left.mpr hsub]
      · simp only [List.mem_map] at hof
        obtain ⟨r, hr, hre⟩ := hof
        have hmm : r.rid ∈ incidentIds (updateKnowledgeWithNewRelations now nr
            ⟨s.entities, s.relations ++ nr, s.knowledge, n2⟩) k.entity := by
          rw [hlist]
          refine List.mem_append.mpr (Or.inr ?_)
          exact List.mem_map.mpr ⟨r, List.mem_filter.mpr ⟨hr, by simp [hre]⟩, rfl⟩
        exact List.ne_nil_of_mem hmm
    · by_cases hot : k.entity ∈ nr.map (fun r => r.rto)
      · rw [if_neg hof, if_pos hot] at hform
        have hset := Option.some.inj (hform.symm.trans hkv2)
        constructor
        · rw [← hset, hgd, hinc]
          rw [fromIdsOf_eq_nil nr _ hof]
          simp
        · simp only [List.mem_map] at hot
          obtain ⟨r, hr, hre⟩ := hot
          have hmm : r.rid ∈ incidentIds (updateKnowledgeWithNewRelations now nr
              ⟨s.entities, s.relations ++ nr, s.knowledge, n2⟩) k.entity := by
            rw [hlist]
            refine List.mem_append.mpr (Or.inr ?_)
            exact List.mem_map.mpr ⟨r, List.mem_filter.mpr ⟨hr, by simp [hre]⟩, rfl⟩
          exact List.ne_nil_of_mem hmm
      · rw [if_neg hof, if_neg hot] at hform
        have hs : kView s k.entity = some k.relations.toFinset := by
          rw [← hkv1, ← hform, hkv2]
        have h1 : k.relations.toFinset = (incidentIds s k.entity).toFinset := by
          have := kView_getD s hinv k.entity
          rw [hs, Option.getD_some] at this
          exact this
        constructor
        · rw [h1, hinc, fromIdsOf_eq_nil nr _ hof, toIdsOf_eq_nil nr _ hot]
          simp
        · have hsne : incidentIds s k.entity ≠ [] := by
            unfold kView at hs
            cases hf0 : s.knowledge.find? (fun d => d.entity == k.entity) with
            | none => rw [hf0] at hs; cases hs
            | some k0 =>
              have hm0 := List.mem_of_find?_eq_some hf0
              have he0 : k0.entity = k.entity := by simpa using List.find?_some hf0
              have hne0 := (hinv.1 k0 hm0).2
              rw [he0] at hne0
              exact hne0
          rw [hlist]
          intro hcontra
          exact hsne (List.append_eq_nil.mp hcontra).1
  · -- both endpoints of every relation own an entry
    have hB : ∀ x, ((∃ k ∈ s.knowledge, k.entity = x) ∨
        x ∈ nr.map (fun r => r.rfrom) ∨ x ∈ nr.map (fun r => r.rto)) →
        ∃ k ∈ (updateKnowledgeWithNewRelations now nr
          ⟨s.entities, s.relations ++ nr, s.knowledge, n2⟩).knowledge, k.entity = x := by
      intro x hx
      rw [exists_entry_iff_kView, c5 x]
      by_cases hof : x ∈ nr.map (fun r => r.rfrom)
      · rw [if_pos hof]; rfl
      · rw [if_neg hof]
        by_cases hot : x ∈ nr.map (fun r => r.rto)
        · rw [if_pos hot]; rfl
        · rw [if_neg hot, hkv1]
          rcases hx with hold | hf | ht
          · exact (exists_entry_iff_kView s x).mp hold
          · exact absurd hf hof
          · exact absurd ht hot
    intro r hr
    rw [c3] at hr
    rcases List.mem_append.mp hr with hrold | hrnew
    · exact ⟨hB r.rfrom (Or.inl (hinv.2 r hrold).1),
        hB r.rto (Or.inl (hinv.2 r hrold).2)⟩
    · exact ⟨hB r.rfrom (Or.inr (Or.inl (List.mem_map.mpr ⟨r, hrnew, rfl⟩))),
        hB r.rto (Or.inr (Or.inr (List.mem_map.mpr ⟨r, hrnew, rfl⟩)))⟩

/-- C2, amended.  The index-derivability invariant — every knowledge entry's
relation-id set equals the set of ids of stored relations incident to its
entity, entries are nonempty, and both endpoints of every relation own an
entry — is preserved by every `createRelations` call whose validated batch
never makes one entity the target of one created relation and the source of
a different one (self-loops allowed); hence it holds after any sequence of
such calls from a consistent store.  It is not preserved in general: a
mixed-endpoint create batch, or any matched `deleteRelations` (which patches
only the from-side entry and keeps emptied entries), breaks it — see the
counterexample. -/
theorem knowledgeDerived_preserved_createRelations (now : Nat) (s : DB)
    (items : List RelationInput) (hwf : WF s) (hinv : knowledgeDerived s)
    (hnc : noCrossEndpoints (constructValidRelations s items).2) :
    WF (createRelations now s items).2 ∧
    knowledgeDerived (createRelations now s items).2 := by
  cases hval : (constructValidRelations s items).1.isEmpty with
  | false =>
    have hstate : (createRelations now s items).2 = s := by
      simp [createRelations, hval]
    rw [hstate]
    exact ⟨hwf, hinv⟩
  | true =>
    have hstate : (createRelations now s items).2 =
        updateKnowledgeWithNewRelations now
          (assignIds s.nextId (constructValidRelations s items).2)
          ⟨s.entities,
           s.relations ++ assignIds s.nextId (constructValidRelations s items).2,
           s.knowledge,
           s.nextId + (constructValidRelations s items).2.length⟩ := by
      simp only [createRelations, hval, Bool.not_true, Bool.false_eq_true, if_false,
        internalCreateRelations_eq]
    rw [hstate]
    exact knowledgeDerived_attach_generic now s _ _ hwf hinv
      (assignIds_rids_nodup _ _)
      (fun r hr => (assignIds_rid_bounds _ _ r hr).1)
      (fun r hr => (assignIds_rid_bounds _ _ r hr).2)
      (Nat.le_add_right _ _)
      (assignIds_noCross _ _ hnc)

/-- C2 witness: the concrete consistent store exR1 (A→B with both index
entries) satisfies the hypotheses for the batch `[B→C]`, and the invariant
holds in the resulting store exR2. -/
theorem knowledgeDerived_preserved_createRelations_witness :
    knowledgeDerived exR1 ∧
    noCrossEndpoints (constructValidRelations exR1 [⟨"B", "C", "knows", []⟩]).2 ∧
    knowledgeDerived (createRelations 105 exR1 [⟨"B", "C", "knows", []⟩]).2 := by
  have hwf : WF exR1 := ⟨by decide, by decide, by decide, by decide, by decide⟩
  refine ⟨by decide, by decide, ?_⟩
  exact (knowledgeDerived_preserved_createRelations 105 exR1 [⟨"B", "C", "knows", []⟩]
    hwf (by decide) (by decide)).2

/-! ### C1: entity-deletion cascade -/

theorem deleteManyRelationIds_ok :
    ∀ (ids : List Nat) (s : DB), ids.Nodup →
      (∀ i ∈ ids, ∃ r ∈ s.relations, r.rid = i) →
      deleteManyRelationIds s ids =
        Except.ok ⟨s.entities, s.relations.filter (fun r => !(ids.contains r.rid)),
          s.knowledge, s.nextId⟩ := by
  intro ids
  induction ids with
  | nil =>
    intro s _ _
    simp [deleteManyRelationIds]
  | cons i rest ih =>
    intro s hnd hp
    have hnd' := List.nodup_cons.mp hnd
    obtain ⟨r0, hr0, hr0i⟩ := hp i (List.mem_cons_self i rest)
    have hany : s.relations.any (fun x => x.rid == i) = true :=
      List.any_eq_true.mpr ⟨r0, hr0, by simp [hr0i]⟩
    have hstep : deleteById Relation.rid s.relations i =
        Except.ok (s.relations.filter (fun x => !(x.rid == i))) := by
      unfold deleteById
      rw [if_pos hany]
    have hrest : ∀ i2 ∈ rest, ∃ r ∈ (⟨s.entities,
        s.relations.filter (fun x => !(x.rid == i)), s.knowledge, s.nextId⟩ : DB).relations,
        r.rid = i2 := by
      intro i2 hi2
      obtain ⟨r2, hr2, hr2i⟩ := hp i2 (List.mem_cons_of_mem _ hi2)
      have hne : i2 ≠ i := fun h => hnd'.1 (h ▸ hi2)
      refine ⟨r2, List.mem_filter.mpr ⟨hr2, ?_⟩, hr2i⟩
      simp [hr2i, hne]
    have hroute := ih ⟨s.entities, s.relations.filter (fun x => !(x.rid == i)),
      s.knowledge, s.nextId⟩ hnd'.2 hrest
    have hpred : (fun a : Relation => !(rest.contains a.rid) && !(a.rid == i)) =
        (fun r : Relation => !((i :: rest).contains r.rid)) := by
      funext r
      have hc : (i :: rest).contains r.rid = ((r.rid == i) || rest.contains r.rid) := rfl
      rw [hc]
      cases h1 : r.rid == i <;> cases h2 : rest.contains r.rid <;> simp [h1, h2]
    show (match deleteById Relation.rid s.relations i with
      | Except.error e => Except.error e
      | Except.ok rs => deleteManyRelationIds { s with relations := rs } rest) = _
    rw [hstep]
    show deleteManyRelationIds ⟨s.entities, s.relations.filter (fun x => !(x.rid == i)),
      s.knowledge, s.nextId⟩ rest = _
    rw [hroute, List.filter_filter, hpred]

theorem deleteManyKnowledgeIds_single (s : DB) (kb : Knowledge)
    (hkb : kb ∈ s.knowledge) :
    deleteManyKnowledgeIds s [kb.kid] =
      Except.ok ⟨s.entities, s.relations,
        s.knowledge.filter (fun k => !(k.kid == kb.kid)), s.nextId⟩ := by
  have hany : s.knowledge.any (fun x => x.kid == kb.kid) = true :=
    List.any_eq_true.mpr ⟨kb, hkb, by simp⟩
  have hstep : deleteById Knowledge.kid s.knowledge kb.kid =
      Except.ok (s.knowledge.filter (fun x => !(x.kid == kb.kid))) := by
    unfold deleteById
    rw [if_pos hany]
  simp [deleteManyKnowledgeIds, hstep]

theorem deleteManyEntityIds_single (s : DB) (b : Entity) (hbm : b ∈ s.entities) :
    deleteManyEntityIds s [b.eid] =
      Except.ok ⟨s.entities.filter (fun e => !(e.eid == b.eid)), s.relations,
        s.knowledge, s.nextId⟩ := by
  have hany : s.entities.any (fun x => x.eid == b.eid) = true :=
    List.any_eq_true.mpr ⟨b, hbm, by simp⟩
  have hstep : deleteById Entity.eid s.entities b.eid =
      Except.ok (s.entities.filter (fun x => !(x.eid == b.eid))) := by
    unfold deleteById
    rw [if_pos hany]
  simp [deleteManyEntityIds, hstep]

/-- C1, amended.  Deleting an entity B whose unique knowledge entry lists
exactly the relations incident to it removes every relation referencing B,
deletes B's entity record and B's own knowledge entry — but, contrary to the
claim, the knowledge entries of the entities at the other end of the deleted
relations are returned untouched: every other entry survives verbatim, so
the entries of A and C still contain the deleted relation ids. -/
theorem deleteEntities_cascade_amended (s : DB) (bname : String) (b : Entity)
    (kb : Knowledge)
    (hb : getEntityFromName s bname = some b)
    (hkb : s.knowledge.filter (fun k => k.entity == b.eid) = [kb])
    (hcover : ∀ r ∈ s.relations, r.rfrom = b.eid ∨ r.rto = b.eid → r.rid ∈ kb.relations)
    (hlive : ∀ i ∈ kb.relations, ∃ r ∈ s.relations, r.rid = i) :
    deleteEntities s [bname] =
      Except.ok
        ([⟨true, bname, none, none, none, some kb.relations.length, none⟩],
        ⟨s.entities.filter (fun e => !(e.eid == b.eid)),
         s.relations.filter (fun r => !((jsDedup kb.relations).contains r.rid)),
         s.knowledge.filter (fun k => !(k.kid == kb.kid)),
         s.nextId⟩) ∧
    (∀ r ∈ s.relations.filter (fun r => !((jsDedup kb.relations).contains r.rid)),
      r.rfrom ≠ b.eid ∧ r.rto ≠ b.eid) ∧
    (∀ k ∈ s.knowledge, k.kid ≠ kb.kid →
      k ∈ s.knowledge.filter (fun k => !(k.kid == kb.kid))) := by
  have hkbmem : kb ∈ s.knowledge :=
    (List.mem_filter.mp (hkb ▸ List.mem_singleton.mpr rfl)).1
  have hbmem : b ∈ s.entities := List.mem_of_find?_eq_some hb
  refine ⟨?_, ?_, ?_⟩
  · have hcol : collectDeletes s [bname] =
        Except.ok ⟨[⟨true, bname, none, none, none, some kb.relations.length, none⟩],
          [b.eid], jsDedup kb.relations, [kb.kid]⟩ := by
      unfold collectDeletes collectDeletesAux uniqueKnowledgeFor
      simp only [hb, hkb]
      simp [collectDeletesAux, jsDedup]
      rfl
    unfold deleteEntities
    simp only [hcol]
    simp only [deleteManyKnowledgeIds_single s kb hkbmem]
    simp only [deleteManyRelationIds_ok (jsDedup kb.relations)
      ⟨s.entities, s.relations, s.knowledge.filter (fun k => !(k.kid == kb.kid)), s.nextId⟩
      (nodup_jsDedup _)
      (fun i hi => hlive i ((mem_jsDedup _ _).mp hi))]
    simp only [deleteManyEntityIds_single
      ⟨s.entities, s.relations.filter (fun r => !((jsDedup kb.relations).contains r.rid)),
       s.knowledge.filter (fun k => !(k.kid == kb.kid)), s.nextId⟩ b hbmem]
  · intro r hr
    have hr' := List.mem_filter.mp hr
    constructor
    · intro he
      have := hcover r hr'.1 (Or.inl he)
      have hc : (jsDedup kb.relations).contains r.rid = true :=
        List.elem_iff.mpr ((mem_jsDedup _ _).mpr this)
      rw [hc] at hr'
      exact absurd hr'.2 (by simp)
    · intro he
      have := hcover r hr'.1 (Or.inr he)
      have hc : (jsDedup kb.relations).contains r.rid = true :=
        List.elem_iff.mpr ((mem_jsDedup _ _).mpr this)
      rw [hc] at hr'
      exact absurd hr'.2 (by simp)
  · intro k hk hne
    exact List.mem_filter.mpr ⟨hk, by simpa using hne⟩

/-- C1 witness: the theorem applied to the concrete store exR2 (A→B is
relation 3, B→C is relation 6, B's entry lists both): the cascade deletes
both relations and B, and A's entry — which still holds the deleted id 3 —
survives unchanged. -/
theorem deleteEntities_cascade_amended_witness :
    deleteEntities exR2 ["B"] =
      Except.ok ([{ success := true, name := "B", relationsRemoved? := some 2 }],
        ⟨exR2.entities.filter (fun e => !(e.eid == 1)),
         exR2.relations.filter (fun r => !((jsDedup [3, 6]).contains r.rid)),
         exR2.knowledge.filter (fun k => !(k.kid == 5)),
         exR2.nextId⟩) ∧
    (⟨4, 0, [3], 100⟩ : Knowledge) ∈ exR2.knowledge.filter (fun k => !(k.kid == 5)) := by
  have h := deleteEntities_cascade_amended exR2 "B" ⟨1, "B", "person", [], 0, []⟩
    ⟨5, 1, [3, 6], 105⟩ (by decide) (by decide) (by decide) (by decide)
  exact ⟨h.1, h.2.2 ⟨4, 0, [3], 100⟩ (by decide) (by decide)⟩

end YouTwo
